import Mathlib

/-!
# Shallow embedding of LightGBM's training/CV controllers (`python-package/lightgbm/engine.py`)

This file embeds, as executable Lean definitions, the parts of `engine.py`
that the verified properties are about:

* the callback-order resolution and dedup step shared by `train` and `cv`
  (lines 125-150 and 351-367);
* the validation-set processing of `train` (lines 99-122);
* the round loop of `train` (lines 160-191) and of `cv` (lines 369-395),
  including the `EarlyStopException` control flow;
* the fold slicing of `_make_n_folds` (lines 232-237);
* the per-round cross-fold aggregation `_agg_cv_result` (lines 251-261)
  and the `<metric>-mean` / `<metric>-stdv` history accumulation of `cv`
  (lines 380-382, 391-394).

Modelling conventions:

* Python object identity of callbacks and datasets is modelled by a natural
  number `id`; `set(callbacks)` (identity-based dedup) becomes a keep-first
  dedup by `id`.
* `EarlyStopException` is modelled by an `Option Nat` outcome of a callback
  invocation (`some b` = the exception was raised carrying
  `best_iteration = b`); an exception escaping a controller is an
  `Except.error`.
* Python floats are modelled by `ℚ`.  `np.std` (a square root) does not stay
  in `ℚ`, so the aggregate record carries the population *variance*
  (`np.std` squared); spec-level statements about the standard deviation are
  phrased through that field.
* External collaborators (`Booster.update`, `eval_train`, `eval_valid`,
  datasets, `np.random.permutation`) are abstracted: the loops record which
  calls are made (`updateLog`, `trace`) and take the collaborator's answers
  as parameters (`evalOf`, `foldEvals`, `randidx`).
* The convenience-callback synthesis of `train`/`cv` (`verbose_eval`,
  `early_stopping_rounds`, `learning_rates`, `evals_result`) is not
  exercised: the embedded controllers correspond to calls with those
  parameters left at `False`/`None`, so the callback set is exactly the
  caller-supplied one.
-/

set_option maxHeartbeats 1000000

namespace LightGBM

/-- Python object identity of a callback. -/
abbrev CbId := Nat

/-- Which dispatch phase of a round a callback invocation belongs to. -/
inductive Phase where
  | before
  | after
deriving DecidableEq, Repr

/-- One callback object as the controllers see it: its identity, its
optional explicit `order` attribute, and its
`getattr(cb, 'before_iteration', False)` flag. -/
structure CallbackRec where
  id : CbId
  explicitOrder : Option Int
  before_iteration : Bool
deriving DecidableEq, Repr

/-- Index of the first occurrence (by object identity) of `c` in the
registration list, used to model `cb.__dict__.setdefault('order', i - len(callbacks))`:
`setdefault` only takes effect at the first occurrence of an object. -/
def firstIdx (cbs : List CallbackRec) (c : CallbackRec) : Nat :=
  cbs.findIdx (fun d => d.id = c.id)

/-- The resolved `order` attribute of callback `c` registered in list `cbs`:
its explicit `order` if it has one, otherwise `i - len(callbacks)` where `i`
is its (first) registration position (engine.py lines 128-129, 354-355). -/
def resolvedOrder (cbs : List CallbackRec) (c : CallbackRec) : Int :=
  match c.explicitOrder with
  | some o => o
  | none => (firstIdx cbs c : Int) - (cbs.length : Int)

/-- Keep-first deduplication by object identity, modelling `set(callbacks)`:
the result lists the first occurrence of each identity, in first-occurrence
order. -/
def dedupById : List CallbackRec → List CallbackRec
  | [] => []
  | c :: rest => c :: (dedupById rest).filter (fun d => d.id ≠ c.id)

/-- Insert into a list sorted ascending by `key` (stable: equal keys keep
the existing elements first). -/
def insertByKey (key : CallbackRec → Int) (c : CallbackRec) :
    List CallbackRec → List CallbackRec
  | [] => [c]
  | d :: rest =>
    if key c < key d then c :: d :: rest
    else d :: insertByKey key c rest

/-- Stable insertion sort ascending by `key`, modelling
`sorted(..., key=attrgetter('order'))`. -/
def sortByKey (key : CallbackRec → Int) : List CallbackRec → List CallbackRec
  | [] => []
  | c :: rest => insertByKey key c (sortByKey key rest)

/-- The callback-resolution step shared by `train` (lines 125-150) and `cv`
(lines 351-367): assign default orders, dedup by identity, partition by the
`before_iteration` flag, and sort each part ascending by resolved order.
Returns `(callbacks_before_iter, callbacks_after_iter)`. -/
def resolveCallbacks (cbs : List CallbackRec) :
    List CallbackRec × List CallbackRec :=
  let deduped := dedupById cbs
  let beforeCbs := deduped.filter (fun c => c.before_iteration)
  let afterCbs := deduped.filter (fun c => !c.before_iteration)
  (sortByKey (resolvedOrder cbs) beforeCbs, sortByKey (resolvedOrder cbs) afterCbs)

/-- The mutable `Booster` state that callbacks can observe and mutate.
Only the `'best_iteration'` attribute (read by `booster.attr('best_iteration')`
at engine.py line 187, set by early-stopping callbacks) is relevant to the
verified properties. -/
structure Booster where
  bestIterAttr : Option Int
deriving DecidableEq, Repr

/-- One evaluation-result tuple
`(data_name, metric_name, value, higher_is_better)` as produced by
`eval_train` / `eval_valid` / `CVBooster.eval`. -/
structure EvalLine where
  dataName : String
  metricName : String
  value : ℚ
  higherBetter : Bool
deriving DecidableEq, Repr

/-- Behaviour of the callback objects during `train`: invoked with the
iteration index and the (mutable) booster, a callback returns the updated
booster and `some b` when it raises `EarlyStopException(b, ...)`,
`none` when it returns normally. -/
abbrev TrainCbBehavior := CbId → Nat → Booster → Booster × Option Nat

/-- Run one dispatch sweep (`for cb in callbacks_...: cb(CallbackEnv(...))`):
invoke the callbacks in list order, stopping at the first one that raises
`EarlyStopException`.  Returns the final state, the identities invoked (in
order), and the raised payload if any. -/
def runCbs {σ : Type} (beh : CbId → Nat → σ → σ × Option Nat) (i : Nat) :
    List CallbackRec → σ → σ × List CbId × Option Nat
  | [], s => (s, [], none)
  | c :: rest, s =>
    match beh c.id i s with
    | (s', some b) => (s', [c.id], some b)
    | (s', none) =>
      let r := runCbs beh i rest s'
      (r.1, c.id :: r.2.1, r.2.2)

/-- The observable state threaded through `train`'s round loop: the booster
the callbacks see, the ghost log of `booster.update` calls (the iteration
index of each call, in call order), and the ghost trace of callback
invocations `(phase, callback identity, iteration)`. -/
structure TrainState where
  booster : Booster
  updateLog : List Nat
  trace : List (Phase × CbId × Nat)
deriving DecidableEq, Repr

/-- Exceptions that can escape the embedded controllers: an `IndexError`
from `valid_names[i]` (engine.py line 113), or an uncaught
`EarlyStopException` carrying its `best_iteration` payload. -/
inductive PyErr where
  | indexErr
  | earlyStop (b : Nat)
deriving DecidableEq, Repr

/-- The round loop of `train` (engine.py lines 160-186):
`for i in range(init_iteration, init_iteration + num_boost_round)`, running
the before-update callbacks (any exception there is uncaught), then
`booster.update`, then the after-update callbacks inside
`try: ... except callback.EarlyStopException: break`. -/
def trainLoop (bcbs acbs : List CallbackRec) (beh : TrainCbBehavior) :
    Nat → Nat → TrainState → Except PyErr TrainState
  | _, 0, s => .ok s
  | i, fuel + 1, s =>
    let rb := runCbs beh i bcbs s.booster
    let s1 : TrainState := { s with
      booster := rb.1
      trace := s.trace ++ rb.2.1.map (fun id => (Phase.before, id, i)) }
    match rb.2.2 with
    | some b => .error (.earlyStop b)
    | none =>
      let s2 : TrainState := { s1 with updateLog := s1.updateLog ++ [i] }
      let ra := runCbs beh i acbs s2.booster
      let s3 : TrainState := { s2 with
        booster := ra.1
        trace := s2.trace ++ ra.2.1.map (fun id => (Phase.after, id, i)) }
      match ra.2.2 with
      | some _ => .ok s3
      | none => trainLoop bcbs acbs beh (i + 1) fuel s3

/-- Result of the validation-set processing of `train`
(engine.py lines 99-122): the `is_valid_contain_train` flag, the resolved
`train_data_name`, and the parallel lists `reduced_valid_sets` /
`name_valid_sets` (datasets modelled by their identity). -/
structure ValidProc where
  is_valid_contain_train : Bool
  train_data_name : String
  reduced_valid_sets : List Nat
  name_valid_sets : List String
deriving DecidableEq, Repr

/-- The body of `for i, valid_data in enumerate(valid_sets)` (lines 108-122),
processed from slot `i` onwards.  A validation dataset identical (`is`) to the
training dataset sets the flag and takes `valid_names[i]` as the training-data
name (this indexing has no bounds guard, so a short `valid_names` raises
`IndexError`, modelled as `none`); every other dataset is appended to the
reduced list under `valid_names[i]` when that exists, else `'valid_' + str(i)`. -/
def processValidLoop (trainId : Nat) (validNames : Option (List String)) :
    Nat → List Nat → ValidProc → Option ValidProc
  | _, [], acc => some acc
  | i, v :: rest, acc =>
    if v = trainId then
      match validNames with
      | some names =>
        match names.get? i with
        | some nm =>
          processValidLoop trainId validNames (i + 1) rest
            { acc with is_valid_contain_train := true, train_data_name := nm }
        | none => none
      | none =>
        processValidLoop trainId validNames (i + 1) rest
          { acc with is_valid_contain_train := true }
    else
      let nm :=
        match validNames with
        | some names => if i < names.length then names.getD i "" else "valid_" ++ toString i
        | none => "valid_" ++ toString i
      processValidLoop trainId validNames (i + 1) rest
        { acc with
          reduced_valid_sets := acc.reduced_valid_sets ++ [v]
          name_valid_sets := acc.name_valid_sets ++ [nm] }

/-- The full validation-set processing of `train` (lines 99-122), starting
from `is_valid_contain_train = False`, `train_data_name = "training"` and
empty lists. -/
def processValidSets (trainId : Nat) (validSets : List Nat)
    (validNames : Option (List String)) : Option ValidProc :=
  processValidLoop trainId validNames 0 validSets
    { is_valid_contain_train := false
      train_data_name := "training"
      reduced_valid_sets := []
      name_valid_sets := [] }

/-- Modelled from the spec: the §6 `Model` collaborator's `eval_train` /
`eval_valid` (their bodies live in `basic.py`, which is not under src/).
`eval_train` returns the Evaluation Result sequence of the training
partition, reported under the name set by `set_train_data_name`;
`eval_valid` returns one sequence per registered validation set, in
registration order.  The per-partition results are abstracted as a function
`evalOf` of the partition name. -/
def evalValidResults (evalOf : String → List EvalLine) (names : List String) :
    List EvalLine :=
  names.flatMap evalOf

/-- The per-round `evaluation_result_list` construction of `train`
(engine.py lines 171-176): empty when `valid_sets is None`; otherwise the
training-set self-evaluation (when `is_valid_contain_train`) extended by
`eval_valid`'s results for the registered validation sets. -/
def roundEvalList (validSetsGiven : Bool) (vp : ValidProc)
    (evalOf : String → List EvalLine) : List EvalLine :=
  if validSetsGiven then
    (if vp.is_valid_contain_train then evalOf vp.train_data_name else []) ++
      evalValidResults evalOf vp.name_valid_sets
  else []

/-- The `train` controller (engine.py lines 83-191) with the
convenience-callback parameters left at their inert values: process the
validation sets, resolve the callbacks, construct a fresh booster (no
`'best_iteration'` attribute), run the round loop from `init_iteration`
(the warm-start predictor's `num_total_iteration`, 0 for a fresh start)
for `num_boost_round` rounds, then resolve `booster.best_iteration` from
the `'best_iteration'` attribute (lines 187-190). -/
def train (trainId : Nat) (validSets : List Nat)
    (validNames : Option (List String)) (cbs : List CallbackRec)
    (beh : TrainCbBehavior) (init_iteration num_boost_round : Nat) :
    Except PyErr (TrainState × Int) :=
  match processValidSets trainId validSets validNames with
  | none => .error .indexErr
  | some _ =>
    match trainLoop (resolveCallbacks cbs).1 (resolveCallbacks cbs).2 beh
        init_iteration num_boost_round ⟨⟨none⟩, [], []⟩ with
    | .error e => .error e
    | .ok s =>
      .ok (s,
        match s.booster.bestIterAttr with
        | some v => v + 1
        | none => (num_boost_round : Int))

/-- `np.mean` over the modelled values. -/
def npMean (v : List ℚ) : ℚ := v.sum / (v.length : ℚ)

/-- The square of `np.std` (population standard deviation) over the modelled
values; the variance is carried instead of the standard deviation so the
computation stays in `ℚ`. -/
def npPopVar (v : List ℚ) : ℚ :=
  ((v.map (fun x => (x - npMean v) ^ 2)).sum) / (v.length : ℚ)

/-- `m[k].append(v)` on a `collections.defaultdict(list)`, modelled as an
insertion-ordered association list: a missing key is created at the end
with the one-element list. -/
def appendAt {α : Type} (m : List (String × List α)) (k : String) (v : α) :
    List (String × List α) :=
  if m.any (fun p => p.1 = k) then
    m.map (fun p => if p.1 = k then (p.1, p.2 ++ [v]) else p)
  else m ++ [(k, [v])]

/-- `m[k] = v` on a `dict`, modelled as an insertion-ordered association
list: an existing key keeps its position, a missing key is appended. -/
def setKey (m : List (String × Bool)) (k : String) (v : Bool) :
    List (String × Bool) :=
  if m.any (fun p => p.1 = k) then
    m.map (fun p => if p.1 = k then (p.1, v) else p)
  else m ++ [(k, v)]

/-- `dict` lookup on an association list. -/
def lookup? {α : Type} (m : List (String × α)) (k : String) : Option α :=
  (m.find? (fun p => p.1 = k)).map (fun p => p.2)

/-- The body of the grouping loop of `_agg_cv_result` (engine.py lines
259-260): `metric_type[one_line[1]] = one_line[3]` and
`cvmap[one_line[1]].append(one_line[2])`. -/
def aggStep (acc : List (String × List ℚ) × List (String × Bool))
    (one_line : EvalLine) : List (String × List ℚ) × List (String × Bool) :=
  (appendAt acc.1 one_line.metricName one_line.value,
   setKey acc.2 one_line.metricName one_line.higherBetter)

/-- The grouping loop of `_agg_cv_result` (engine.py lines 255-260): for
each fold's result sequence and each line in it, run `aggStep`. -/
def aggCollect (raw : List (List EvalLine)) :
    List (String × List ℚ) × List (String × Bool) :=
  raw.foldl (fun acc one_result => one_result.foldl aggStep acc) ([], [])

/-- One aggregate tuple `('cv_agg', k, np.mean(v), metric_type[k], np.std(v))`
(engine.py line 261); `popVar` carries `np.std(v)` squared (the population
variance), see `npPopVar`. -/
structure AggLine where
  dataName : String
  metricName : String
  mean : ℚ
  higherBetter : Bool
  popVar : ℚ
deriving DecidableEq, Repr

/-- `_agg_cv_result` (engine.py lines 251-261). -/
def aggCvResult (raw : List (List EvalLine)) : List AggLine :=
  let c := aggCollect raw
  c.1.map (fun p =>
    ⟨"cv_agg", p.1, npMean p.2, (lookup? c.2 p.1).getD false, npPopVar p.2⟩)

/-- Behaviour of the callback objects during `cv`: the snapshot they receive
carries the fold contexts rather than a mutable booster, so an invocation is
determined by the callback identity and the iteration index; `some b` means
the callback raised `EarlyStopException(b, ...)`. -/
abbrev CvCbBehavior := CbId → Nat → Option Nat

/-- The observable state threaded through `cv`'s round loop: the `results`
histories (`collections.defaultdict(list)`), the ghost log of rounds whose
per-fold `fold.update(fobj)` sweep ran, and the ghost trace of callback
invocations. -/
structure CvState where
  results : List (String × List ℚ)
  rounds : List Nat
  trace : List (Phase × CbId × Nat)
deriving DecidableEq, Repr

/-- Wrap a `CvCbBehavior` for the generic dispatch sweep (state `Unit`). -/
def cvBeh (beh : CvCbBehavior) : CbId → Nat → Unit → Unit × Option Nat :=
  fun id i _ => ((), beh id i)

/-- One round's history accumulation in `cv` (engine.py lines 380-382):
`for _, key, mean, _, std in res: results[key + '-mean'].append(mean);
results[key + '-stdv'].append(std)`. -/
def cvResultsStep (res : List AggLine) (m : List (String × List ℚ)) :
    List (String × List ℚ) :=
  res.foldl (fun acc a =>
    appendAt (appendAt acc (a.metricName ++ "-mean") a.mean)
      (a.metricName ++ "-stdv") a.popVar) m

/-- The round loop of `cv` (engine.py lines 369-394):
`for i in range(num_boost_round)`, running the before-update callbacks (any
exception there is uncaught), then one `fold.update(fobj)` per fold, then
`_agg_cv_result` over the per-fold evaluations (`foldEvals i` abstracts
`[f.eval(feval) for f in cvfolds]` at round `i`), appending each aggregate's
mean and std to the `<metric>-mean` / `<metric>-stdv` histories, then the
after-update callbacks inside `try: ... except callback.EarlyStopException
as e:`, whose handler truncates every history to `e.best_iteration + 1`
entries and breaks. -/
def cvLoop (bcbs acbs : List CallbackRec) (beh : CvCbBehavior)
    (foldEvals : Nat → List (List EvalLine)) :
    Nat → Nat → CvState → Except PyErr CvState
  | _, 0, s => .ok s
  | i, fuel + 1, s =>
    let rb := runCbs (cvBeh beh) i bcbs ()
    let s1 : CvState := { s with
      trace := s.trace ++ rb.2.1.map (fun id => (Phase.before, id, i)) }
    match rb.2.2 with
    | some b => .error (.earlyStop b)
    | none =>
      let s2 : CvState := { s1 with rounds := s1.rounds ++ [i] }
      let s3 : CvState := { s2 with
        results := cvResultsStep (aggCvResult (foldEvals i)) s2.results }
      let ra := runCbs (cvBeh beh) i acbs ()
      let s4 : CvState := { s3 with
        trace := s3.trace ++ ra.2.1.map (fun id => (Phase.after, id, i)) }
      match ra.2.2 with
      | some b =>
        .ok { s4 with results := s4.results.map (fun p => (p.1, p.2.take (b + 1))) }
      | none => cvLoop bcbs acbs beh foldEvals (i + 1) fuel s4

/-- The metric-merging step of `cv` (engine.py lines 340-345): when `metrics`
is non-empty (truthy), `params.setdefault('metric', [])` followed by
appending the metric name(s); a single string argument is the one-element
case of the list form.  The hyperparameter dict is modelled as an
insertion-ordered association list from key to list of metric names, and the
in-place mutation as returning the updated dict. -/
def cvUpdateParams (params : List (String × List String))
    (metrics : List String) : List (String × List String) :=
  if metrics.isEmpty then params
  else
    let p1 :=
      if params.any (fun p => p.1 = "metric") then params
      else params ++ [("metric", [])]
    p1.map (fun q => if q.1 = "metric" then (q.1, q.2 ++ metrics) else q)

/-- The `cv` controller (engine.py lines 326-395) with the
convenience-callback parameters left at their inert values: merge the
requested metrics into `params` (the returned dict models the caller-visible
in-place mutation), resolve the callbacks, and run the round loop from
round 0 for `num_boost_round` rounds. -/
def cv (params : List (String × List String)) (metrics : List String)
    (cbs : List CallbackRec) (beh : CvCbBehavior)
    (foldEvals : Nat → List (List EvalLine)) (num_boost_round : Nat) :
    Except PyErr (CvState × List (String × List String)) :=
  match cvLoop (resolveCallbacks cbs).1 (resolveCallbacks cbs).2 beh foldEvals
      0 num_boost_round ⟨[], [], []⟩ with
  | .error e => .error e
  | .ok s => .ok (s, cvUpdateParams params metrics)

/-- Python list slicing `l[a : b]` with `0 ≤ a ≤ b` (the only case the
embedded code reaches). -/
def pySlice {α : Type} (l : List α) (a b : Nat) : List α := (l.take b).drop a

/-- `kstep = int(len(randidx) / nfold)` (engine.py line 236). -/
def kstep (count nfold : Nat) : Nat := count / nfold

/-- The validation-index blocks of the non-stratified branch of
`_make_n_folds` (engine.py line 237):
`[randidx[i*kstep : min(len(randidx), (i+1)*kstep)] for i in range(nfold)]`. -/
def foldIdset (randidx : List Nat) (nfold : Nat) : List (List Nat) :=
  (List.range nfold).map (fun i =>
    pySlice randidx (i * kstep randidx.length nfold)
      (min randidx.length ((i + 1) * kstep randidx.length nfold)))

/-- The non-stratified branch of `_make_n_folds` (engine.py lines 232-237):
when `shuffle` is true, `randidx = np.random.permutation(num_data)`
(abstracted as the parameter `randperm`) and the index blocks are
`foldIdset randperm nfold`; when `shuffle` is false, `randidx` is never
assigned (the assignment at line 235 sits under `if shuffle:`) yet line 236
reads it, so Python raises `NameError` — modelled as `none`. -/
def makeNFoldsIdset (nfold : Nat) (shuffle : Bool) (randperm : List Nat) :
    Option (List (List Nat)) :=
  if shuffle then some (foldIdset randperm nfold) else none

/-- Ghost characterization of the callback invocations one full (non-raising)
round `i` appends to the trace: the before-update sweep followed by the
after-update sweep. -/
def roundTrace (bcbs acbs : List CallbackRec) (i : Nat) :
    List (Phase × CbId × Nat) :=
  bcbs.map (fun c => (Phase.before, c.id, i)) ++
    acbs.map (fun c => (Phase.after, c.id, i))

/-- Spec-side helper: the values reported for metric `m` in a flat list of
evaluation lines, in order. -/
def lineValues (m : String) (ls : List EvalLine) : List ℚ :=
  (ls.filter (fun l => l.metricName = m)).map (fun l => l.value)

/-- Spec-side helper: the per-fold values reported for metric `m` in one
round's raw per-fold results, in fold order then line order — the grouping
the spec describes for `_agg_cv_result`. -/
def metricValues (m : String) (raw : List (List EvalLine)) : List ℚ :=
  lineValues m raw.flatten

/-- Spec-side helper: the name `train`'s validation-set loop gives slot `i`
of the caller's validation list when that slot is not the training set
(engine.py lines 119-122). -/
def slotName (validNames : Option (List String)) (i : Nat) : String :=
  match validNames with
  | some names =>
    if i < names.length then names.getD i "" else "valid_" ++ toString i
  | none => "valid_" ++ toString i

/-! ## Fold-slicing lemmas (`_make_n_folds`, non-stratified branch) -/

lemma kstep_mul_le (count nfold : Nat) : nfold * kstep count nfold ≤ count := by
  unfold kstep
  exact Nat.mul_div_le count nfold

lemma pySlice_length {α : Type} (l : List α) (a b : Nat) (hb : b ≤ l.length) :
    (pySlice l a b).length = b - a := by
  unfold pySlice
  simp [Nat.min_eq_left hb]

/-- The concatenation of the `nfold` validation blocks is exactly the first
`nfold * kstep` entries of `randidx`; the `min` clamp at line 237 never
takes effect because `(i+1) * kstep ≤ nfold * kstep ≤ len(randidx)`. -/
lemma foldIdset_prefix_join (randidx : List Nat) (nfold : Nat) :
    ∀ m ≤ nfold,
      (((List.range m).map (fun i =>
          pySlice randidx (i * kstep randidx.length nfold)
            (min randidx.length ((i + 1) * kstep randidx.length nfold)))).flatten) =
        randidx.take (m * kstep randidx.length nfold) := by
  intro m
  induction m with
  | zero => intro _; simp
  | succ n ih =>
    intro hm
    have hn : n ≤ nfold := Nat.le_of_succ_le hm
    have hle : (n + 1) * kstep randidx.length nfold ≤ randidx.length := by
      calc (n + 1) * kstep randidx.length nfold
          ≤ nfold * kstep randidx.length nfold :=
            Nat.mul_le_mul_right _ hm
        _ ≤ randidx.length := kstep_mul_le _ _
    rw [List.range_succ, List.map_append, List.flatten_append, ih hn]
    simp only [List.map_cons, List.map_nil, List.flatten_cons, List.flatten_nil,
      List.append_nil]
    rw [Nat.min_eq_right hle]
    unfold pySlice
    have h1 : (randidx.take ((n + 1) * kstep randidx.length nfold)).take
        (n * kstep randidx.length nfold) =
        randidx.take (n * kstep randidx.length nfold) := by
      rw [List.take_take]
      congr 1
      have : n * kstep randidx.length nfold ≤ (n + 1) * kstep randidx.length nfold :=
        Nat.mul_le_mul_right _ (Nat.le_succ n)
      omega
    conv_lhs => rw [← h1]
    exact List.take_append_drop _ _

lemma foldIdset_block_length (randidx : List Nat) (nfold : Nat) :
    ∀ b ∈ foldIdset randidx nfold, b.length = kstep randidx.length nfold := by
  intro b hb
  unfold foldIdset at hb
  obtain ⟨i, hi, rfl⟩ := List.mem_map.mp hb
  have hi' : i < nfold := List.mem_range.mp hi
  have hle : (i + 1) * kstep randidx.length nfold ≤ randidx.length := by
    calc (i + 1) * kstep randidx.length nfold
        ≤ nfold * kstep randidx.length nfold := Nat.mul_le_mul_right _ hi'
      _ ≤ randidx.length := kstep_mul_le _ _
  rw [Nat.min_eq_right hle, pySlice_length _ _ _ hle, Nat.succ_mul]
  omega

/-- C4 as stated is false: `_make_n_folds` on a shuffled 5-row dataset with
`nfold = 2` produces the blocks `[[0, 1], [2, 3]]` — both of size
`⌊5/2⌋ = 2` — so the final block does not absorb the remainder and the row
index at the last position of the permutation (here `4`) appears in no
validation block, not in exactly one. -/
theorem C4_counterexample :
    makeNFoldsIdset 2 true [0, 1, 2, 3, 4] = some [[0, 1], [2, 3]] ∧
    (foldIdset [0, 1, 2, 3, 4] 2).flatten.count 4 = 0 ∧
    (4 : Nat) ∈ [0, 1, 2, 3, 4] := by
  decide

/-- C4 amended: for a non-stratified split of a permutation `randidx` of
`count` distinct row indices into `nfold` blocks with `count` not divisible
by `nfold`, *all* `nfold` validation blocks (the final one included) are
contiguous slices of size exactly `⌊count/nfold⌋`; their concatenation is
the first `nfold * ⌊count/nfold⌋` entries of the permutation, each of which
appears in exactly one block, while the remaining `count mod nfold` entries
(a nonempty tail of the permutation) appear in no block. -/
theorem C4_fold_slicing (randidx : List Nat) (nfold : Nat)
    (hnd : randidx.Nodup) (hmod : randidx.length % nfold ≠ 0) :
    (foldIdset randidx nfold).length = nfold ∧
    (∀ b ∈ foldIdset randidx nfold, b.length = kstep randidx.length nfold) ∧
    (foldIdset randidx nfold).flatten =
      randidx.take (nfold * kstep randidx.length nfold) ∧
    (∀ x ∈ randidx.take (nfold * kstep randidx.length nfold),
      (foldIdset randidx nfold).flatten.count x = 1) ∧
    (∀ x ∈ randidx.drop (nfold * kstep randidx.length nfold),
      ∀ b ∈ foldIdset randidx nfold, x ∉ b) ∧
    (randidx.drop (nfold * kstep randidx.length nfold)).length =
      randidx.length % nfold ∧
    randidx.length % nfold ≠ 0 := by
  have hjoin : (foldIdset randidx nfold).flatten =
      randidx.take (nfold * kstep randidx.length nfold) :=
    foldIdset_prefix_join randidx nfold nfold (Nat.le_refl _)
  have hsplit := List.take_append_drop (nfold * kstep randidx.length nfold) randidx
  have hnd2 : (randidx.take (nfold * kstep randidx.length nfold) ++
      randidx.drop (nfold * kstep randidx.length nfold)).Nodup := by
    rw [hsplit]; exact hnd
  have hdisj := (List.nodup_append.mp hnd2).2.2
  refine ⟨?_, foldIdset_block_length randidx nfold, hjoin, ?_, ?_, ?_, hmod⟩
  · unfold foldIdset; simp
  · intro x hx
    rw [hjoin]
    exact List.count_eq_one_of_mem
      (hnd.sublist (List.take_sublist _ _)) hx
  · intro x hx b hb hxb
    have hxj : x ∈ (foldIdset randidx nfold).flatten :=
      List.mem_flatten.mpr ⟨b, hb, hxb⟩
    rw [hjoin] at hxj
    exact hdisj hxj hx
  · have hd := Nat.div_add_mod randidx.length nfold
    have := kstep_mul_le randidx.length nfold
    rw [List.length_drop]
    unfold kstep at *
    omega

/-- C4 witness: the amended statement at the permutation `[0,1,2,3,4]` with
`nfold = 2`. -/
theorem C4_fold_slicing_witness :
    ([0, 1, 2, 3, 4] : List Nat).Nodup ∧ ([0, 1, 2, 3, 4] : List Nat).length % 2 ≠ 0 ∧
    ((foldIdset [0, 1, 2, 3, 4] 2).length = 2 ∧
      (∀ b ∈ foldIdset [0, 1, 2, 3, 4] 2, b.length = kstep 5 2) ∧
      (foldIdset [0, 1, 2, 3, 4] 2).flatten = ([0, 1, 2, 3, 4] : List Nat).take (2 * kstep 5 2) ∧
      (∀ x ∈ ([0, 1, 2, 3, 4] : List Nat).take (2 * kstep 5 2),
        (foldIdset [0, 1, 2, 3, 4] 2).flatten.count x = 1) ∧
      (∀ x ∈ ([0, 1, 2, 3, 4] : List Nat).drop (2 * kstep 5 2),
        ∀ b ∈ foldIdset [0, 1, 2, 3, 4] 2, x ∉ b) ∧
      (([0, 1, 2, 3, 4] : List Nat).drop (2 * kstep 5 2)).length = 5 % 2 ∧
      (5 : Nat) % 2 ≠ 0) :=
  ⟨by decide, by decide, C4_fold_slicing [0, 1, 2, 3, 4] 2 (by decide) (by decide)⟩

/-- C5: with `shuffle` disabled the non-stratified branch of `_make_n_folds`
does not succeed at all: `randidx` is only assigned under `if shuffle:`
(line 234-235) but is read unconditionally at line 236, so the call on a
10-row dataset with `nfold = 5` raises `NameError` instead of producing the
five 2-row blocks the claim describes. -/
theorem C5_shuffle_disabled_fails :
    makeNFoldsIdset 5 false (List.range 10) = none := rfl

/-! ## Callback-order resolution (C7) -/

lemma firstIdx_lt_length (cbs : List CallbackRec) (c : CallbackRec)
    (hc : c ∈ cbs) : firstIdx cbs c < cbs.length := by
  unfold firstIdx
  exact List.findIdx_lt_length_of_exists ⟨c, hc, by simp⟩

/-- C7 as stated is false: with the registration list
`[cb₀ (no order), cb₁ (order = -5)]`, the order-less `cb₀` is auto-assigned
`0 - 2 = -2`, which is *not* less than the explicit order `-5`; consequently
the resolved ascending sort runs the explicitly ordered callback first. -/
theorem C7_counterexample :
    resolvedOrder
        [⟨0, none, false⟩, ⟨1, some (-5), false⟩] ⟨0, none, false⟩ = -2 ∧
    ¬ (resolvedOrder
        [⟨0, none, false⟩, ⟨1, some (-5), false⟩] ⟨0, none, false⟩ <
       resolvedOrder
        [⟨0, none, false⟩, ⟨1, some (-5), false⟩] ⟨1, some (-5), false⟩) ∧
    (resolveCallbacks [⟨0, none, false⟩, ⟨1, some (-5), false⟩]).2 =
      [⟨1, some (-5), false⟩, ⟨0, none, false⟩] := by
  refine ⟨by decide, by decide, ?_⟩
  rfl

/-- C7 amended: each order-less callback is auto-assigned
`first registration position - len(callbacks)`, which is negative, keeps
explicit orders untouched, is less than every *non-negative* explicit
order, and is strictly increasing in registration position, so the
auto-assigned callbacks preserve their relative registration sequence in
the ascending sort. -/
theorem C7_order_resolution (cbs : List CallbackRec) :
    (∀ c ∈ cbs, c.explicitOrder = none → resolvedOrder cbs c < 0) ∧
    (∀ c, ∀ o : Int, c.explicitOrder = some o → resolvedOrder cbs c = o) ∧
    (∀ c ∈ cbs, ∀ d, ∀ o : Int, c.explicitOrder = none →
      d.explicitOrder = some o → 0 ≤ o →
      resolvedOrder cbs c < resolvedOrder cbs d) ∧
    (∀ c ∈ cbs, ∀ d ∈ cbs, c.explicitOrder = none → d.explicitOrder = none →
      firstIdx cbs c < firstIdx cbs d →
      resolvedOrder cbs c < resolvedOrder cbs d) := by
  have hneg : ∀ c ∈ cbs, c.explicitOrder = none → resolvedOrder cbs c < 0 := by
    intro c hc hnone
    have hlt := firstIdx_lt_length cbs c hc
    unfold resolvedOrder
    rw [hnone]
    simp only []
    omega
  have hexp : ∀ c, ∀ o : Int, c.explicitOrder = some o →
      resolvedOrder cbs c = o := by
    intro c o ho
    unfold resolvedOrder
    rw [ho]
  refine ⟨hneg, hexp, ?_, ?_⟩
  · intro c hc d o hnone ho hnn
    have h1 := hneg c hc hnone
    have h2 := hexp d o ho
    omega
  · intro c hc d _ hcn hdn hlt
    unfold resolvedOrder
    rw [hcn, hdn]
    simp only []
    omega

/-- C7 witness: the amended statement applied to
`[cb₀ (no order), cb₁ (order = 3), cb₂ (no order)]`: the order-less `cb₀`
sorts before the explicitly ordered `cb₁`, and `cb₀` before `cb₂`. -/
theorem C7_order_resolution_witness :
    resolvedOrder [⟨0, none, false⟩, ⟨1, some 3, false⟩, ⟨2, none, true⟩]
        ⟨0, none, false⟩ <
      resolvedOrder [⟨0, none, false⟩, ⟨1, some 3, false⟩, ⟨2, none, true⟩]
        ⟨1, some 3, false⟩ ∧
    resolvedOrder [⟨0, none, false⟩, ⟨1, some 3, false⟩, ⟨2, none, true⟩]
        ⟨0, none, false⟩ <
      resolvedOrder [⟨0, none, false⟩, ⟨1, some 3, false⟩, ⟨2, none, true⟩]
        ⟨2, none, true⟩ :=
  ⟨(C7_order_resolution _).2.2.1 ⟨0, none, false⟩ (by simp) ⟨1, some 3, false⟩ 3
      rfl rfl (by decide),
   (C7_order_resolution _).2.2.2 ⟨0, none, false⟩ (by simp) ⟨2, none, true⟩
      (by simp) rfl rfl (by decide)⟩

/-! ## Association-list lemmas for `dict` / `defaultdict` models -/

lemma lookup?_nil {α : Type} (k : String) : lookup? ([] : List (String × α)) k = none := rfl

lemma lookup?_cons {α : Type} (p : String × α) (m : List (String × α)) (k : String) :
    lookup? (p :: m) k = if p.1 = k then some p.2 else lookup? m k := by
  by_cases h : p.1 = k <;> simp [lookup?, List.find?_cons, h]

lemma lookup?_append_left {α : Type} (a b : List (String × α)) (k : String)
    {v : α} (h : lookup? a k = some v) : lookup? (a ++ b) k = some v := by
  induction a with
  | nil => simp [lookup?_nil] at h
  | cons p rest ih =>
    rw [List.cons_append, lookup?_cons] at *
    by_cases hp : p.1 = k
    · simpa [hp] using h
    · rw [if_neg hp] at h ⊢
      exact ih h

lemma lookup?_append_right {α : Type} (a b : List (String × α)) (k : String)
    (h : lookup? a k = none) : lookup? (a ++ b) k = lookup? b k := by
  induction a with
  | nil => simp
  | cons p rest ih =>
    rw [List.cons_append, lookup?_cons] at *
    by_cases hp : p.1 = k
    · rw [if_pos hp] at h; exact absurd h (by simp)
    · rw [if_neg hp] at h ⊢
      exact ih h

lemma lookup?_map_modify {α : Type} (m : List (String × α)) (k : String)
    (g : α → α) :
    lookup? (m.map (fun q => if q.1 = k then (q.1, g q.2) else q)) k =
      (lookup? m k).map g := by
  induction m with
  | nil => simp [lookup?_nil]
  | cons p rest ih =>
    obtain ⟨a, b⟩ := p
    by_cases hp : a = k
    · subst hp
      simp [lookup?_cons]
    · simp [lookup?_cons, hp, ih]

lemma lookup?_map_modify_ne {α : Type} (m : List (String × α)) (k k' : String)
    (g : α → α) (hne : k' ≠ k) :
    lookup? (m.map (fun q => if q.1 = k then (q.1, g q.2) else q)) k' =
      lookup? m k' := by
  induction m with
  | nil => simp
  | cons p rest ih =>
    obtain ⟨a, b⟩ := p
    by_cases hp : a = k
    · subst hp
      have hp' : a ≠ k' := fun h => hne h.symm
      simp [lookup?_cons, hp', ih]
    · by_cases hq : a = k'
      · subst hq
        simp [lookup?_cons, hp]
      · simp [lookup?_cons, hp, hq, ih]

lemma lookup?_eq_none_of_any_false {α : Type} (m : List (String × α)) (k : String)
    (h : m.any (fun p => p.1 = k) = false) : lookup? m k = none := by
  induction m with
  | nil => rfl
  | cons p rest ih =>
    simp only [List.any_cons, Bool.or_eq_false_iff] at h
    rw [lookup?_cons, if_neg (by simpa using h.1)]
    exact ih h.2

lemma lookup?_isSome_of_any_true {α : Type} (m : List (String × α)) (k : String)
    (h : m.any (fun p => p.1 = k) = true) : ∃ v, lookup? m k = some v := by
  induction m with
  | nil => simp at h
  | cons p rest ih =>
    rw [lookup?_cons]
    by_cases hp : p.1 = k
    · exact ⟨p.2, by rw [if_pos hp]⟩
    · simp only [List.any_cons, Bool.or_eq_true_iff] at h
      rcases h with h | h
      · exact absurd (by simpa using h) hp
      · rw [if_neg hp]; exact ih h

/-! ## C10: `cv` mutates the caller's `params` in place -/

lemma cvUpdateParams_metric (params : List (String × List String))
    (metrics : List String) (h : metrics ≠ []) :
    lookup? (cvUpdateParams params metrics) "metric" =
      some ((lookup? params "metric").getD [] ++ metrics) := by
  unfold cvUpdateParams
  rw [if_neg (by simpa using h)]
  by_cases hany : params.any (fun p => p.1 = "metric") = true
  · simp only [hany, if_true]
    obtain ⟨v, hv⟩ := lookup?_isSome_of_any_true params "metric" hany
    have hmod := lookup?_map_modify params "metric" (fun x => x ++ metrics)
    rw [hv] at hmod
    simpa [hv] using hmod
  · simp only [Bool.not_eq_true] at hany
    simp only [hany, Bool.false_eq_true, if_false]
    have hn := lookup?_eq_none_of_any_false params "metric" hany
    have hmod := lookup?_map_modify (params ++ [("metric", [])]) "metric"
      (fun x => x ++ metrics)
    have happ : lookup? (params ++ [("metric", ([] : List String))]) "metric" =
        some [] := by
      rw [lookup?_append_right _ _ _ hn, lookup?_cons]
      simp
    rw [happ] at hmod
    simpa [hn] using hmod

lemma cvUpdateParams_other (params : List (String × List String))
    (metrics : List String) (k : String) (hk : k ≠ "metric") :
    lookup? (cvUpdateParams params metrics) k = lookup? params k := by
  unfold cvUpdateParams
  by_cases he : metrics.isEmpty
  · rw [if_pos he]
  · rw [if_neg he]
    by_cases hany : params.any (fun p => p.1 = "metric") = true
    · simp only [hany, if_true]
      exact lookup?_map_modify_ne params "metric" k (fun x => x ++ metrics) hk
    · simp only [Bool.not_eq_true] at hany
      simp only [hany, Bool.false_eq_true, if_false]
      rw [lookup?_map_modify_ne (params ++ [("metric", [])]) "metric" k
        (fun x => x ++ metrics) hk]
      by_cases hpk : lookup? params k = none
      · rw [lookup?_append_right _ _ _ hpk, hpk, lookup?_cons,
          if_neg (fun h => hk h.symm), lookup?_nil]
      · obtain ⟨v, hv⟩ := Option.ne_none_iff_exists'.mp hpk
        rw [lookup?_append_left _ _ _ hv, hv]

/-- C10: when `metrics` is non-empty, `cv` mutates the caller-supplied
`params` dict in place (engine.py lines 340-345): the metric names are
appended to `params['metric']` (the key is created when absent), every
other key is untouched, the mutated dict is what the caller observes after
`cv` returns, and reusing the same dict across two `cv` calls accumulates
the metric entries. -/
theorem C10_cv_param_mutation (params : List (String × List String))
    (metrics metrics2 : List String) (cbs : List CallbackRec)
    (beh : CvCbBehavior) (foldEvals : Nat → List (List EvalLine)) (R : Nat)
    (h : metrics ≠ []) (h2 : metrics2 ≠ []) :
    lookup? (cvUpdateParams params metrics) "metric" =
      some ((lookup? params "metric").getD [] ++ metrics) ∧
    (∀ k, k ≠ "metric" →
      lookup? (cvUpdateParams params metrics) k = lookup? params k) ∧
    lookup? (cvUpdateParams (cvUpdateParams params metrics) metrics2) "metric" =
      some ((lookup? params "metric").getD [] ++ metrics ++ metrics2) ∧
    (∀ s ps, cv params metrics cbs beh foldEvals R = .ok (s, ps) →
      ps = cvUpdateParams params metrics) := by
  refine ⟨cvUpdateParams_metric params metrics h,
    fun k hk => cvUpdateParams_other params metrics k hk, ?_, ?_⟩
  · rw [cvUpdateParams_metric _ metrics2 h2,
      cvUpdateParams_metric params metrics h]
    simp [List.append_assoc]
  · intro s ps hcv
    unfold cv at hcv
    cases hloop : cvLoop (resolveCallbacks cbs).1 (resolveCallbacks cbs).2 beh
        foldEvals 0 R ⟨[], [], []⟩ with
    | error e => rw [hloop] at hcv; exact absurd hcv (by simp)
    | ok st =>
      rw [hloop] at hcv
      simp only [Except.ok.injEq, Prod.mk.injEq] at hcv
      exact hcv.2.symm

/-- C10 witness: a concrete `cv` call with `params = {}` and
`metrics = ["auc"]`, re-run with `metrics = ["l2"]`. -/
theorem C10_cv_param_mutation_witness :
    lookup? (cvUpdateParams [] ["auc"]) "metric" =
      some ((lookup? ([] : List (String × List String)) "metric").getD [] ++ ["auc"]) ∧
    (∀ k, k ≠ "metric" →
      lookup? (cvUpdateParams [] ["auc"]) k =
        lookup? ([] : List (String × List String)) k) ∧
    lookup? (cvUpdateParams (cvUpdateParams [] ["auc"]) ["l2"]) "metric" =
      some ((lookup? ([] : List (String × List String)) "metric").getD []
        ++ ["auc"] ++ ["l2"]) ∧
    (∀ s ps, cv [] ["auc"] [] (fun _ _ => none) (fun _ => []) 2 = .ok (s, ps) →
      ps = cvUpdateParams [] ["auc"]) :=
  C10_cv_param_mutation [] ["auc"] ["l2"] [] (fun _ _ => none) (fun _ => []) 2
    (by simp) (by simp)

/-! ## Dispatch-sweep lemmas -/

/-- A sweep in which no callback raises invokes every callback once, in list
order, and produces no exception. -/
lemma runCbs_no_raise {σ : Type} (beh : CbId → Nat → σ → σ × Option Nat)
    (i : Nat) (cbs : List CallbackRec)
    (hno : ∀ c ∈ cbs, ∀ s, (beh c.id i s).2 = none) :
    ∀ s : σ, (runCbs beh i cbs s).2.1 = cbs.map (fun c => c.id) ∧
      (runCbs beh i cbs s).2.2 = none := by
  induction cbs with
  | nil => intro s; exact ⟨rfl, rfl⟩
  | cons c rest ih =>
    intro s
    rcases hb : beh c.id i s with ⟨s1, e⟩
    have he : e = none := by
      have := hno c (List.mem_cons_self c rest) s
      rw [hb] at this
      exact this
    subst he
    have ih' := ih (fun d hd s' => hno d (List.mem_cons_of_mem c hd) s') s1
    simp [runCbs, hb, ih'.1, ih'.2]

/-- A sweep in which some callback raises invokes only the callbacks up to
and including the raiser: the invocation list is a proper prefix of the
sweep's callback list. -/
lemma runCbs_raise_prefix {σ : Type} (beh : CbId → Nat → σ → σ × Option Nat)
    (i : Nat) :
    ∀ (cbs : List CallbackRec) (s : σ) (b : Nat),
      (runCbs beh i cbs s).2.2 = some b →
      ∃ k, k < cbs.length ∧
        (runCbs beh i cbs s).2.1 = (cbs.take (k + 1)).map (fun c => c.id) := by
  intro cbs
  induction cbs with
  | nil => intro s b h; simp [runCbs] at h
  | cons c rest ih =>
    intro s b h
    rcases hb : beh c.id i s with ⟨s1, e⟩
    cases e with
    | some b' =>
      exact ⟨0, Nat.succ_pos _, by simp [runCbs, hb]⟩
    | none =>
      rw [show (runCbs beh i (c :: rest) s).2.2 =
          (runCbs beh i rest s1).2.2 by simp [runCbs, hb]] at h
      obtain ⟨k, hk, hpre⟩ := ih s1 b h
      refine ⟨k + 1, by simpa using Nat.succ_lt_succ hk, ?_⟩
      simp [runCbs, hb, hpre]

/-! ## `train` round-loop lemmas and C1 -/

/-- When no callback ever raises, `train`'s round loop runs its full budget:
one `booster.update` per round at consecutive indices, with the trace
accumulating one before-sweep and one after-sweep per round. -/
lemma trainLoop_no_raise (bcbs acbs : List CallbackRec) (beh : TrainCbBehavior)
    (hno : ∀ id j b, (beh id j b).2 = none) :
    ∀ (fuel i : Nat) (s : TrainState),
      ∃ s', trainLoop bcbs acbs beh i fuel s = .ok s' ∧
        s'.updateLog = s.updateLog ++ List.range' i fuel ∧
        s'.trace = s.trace ++
          ((List.range' i fuel).map (roundTrace bcbs acbs)).flatten := by
  intro fuel
  induction fuel with
  | zero => intro i s; exact ⟨s, rfl, by simp, by simp⟩
  | succ n ih =>
    intro i s
    have hb := runCbs_no_raise beh i bcbs (fun c _ s' => hno c.id i s') s.booster
    have ha := runCbs_no_raise beh i acbs (fun c _ s' => hno c.id i s')
      (runCbs beh i bcbs s.booster).1
    obtain ⟨s', hs', hul, htr⟩ := ih (i + 1)
      { booster := (runCbs beh i acbs (runCbs beh i bcbs s.booster).1).1
        updateLog := s.updateLog ++ [i]
        trace := s.trace ++
          (bcbs.map (fun c => (Phase.before, c.id, i)) ++
            acbs.map (fun c => (Phase.after, c.id, i))) }
    refine ⟨s', ?_, ?_, ?_⟩
    · rw [show trainLoop bcbs acbs beh i (n + 1) s =
          trainLoop bcbs acbs beh (i + 1) n
            { booster := (runCbs beh i acbs (runCbs beh i bcbs s.booster).1).1
              updateLog := s.updateLog ++ [i]
              trace := s.trace ++
                (bcbs.map (fun c => (Phase.before, c.id, i)) ++
                  acbs.map (fun c => (Phase.after, c.id, i))) } by
        simp [trainLoop, hb.1, hb.2, ha.1, ha.2, List.append_assoc,
          Function.comp_def]]
      exact hs'
    · rw [hul]
      simp [List.range']
    · rw [htr]
      simp [roundTrace, List.range', List.append_assoc]

/-- C1: `train` with round budget `R` and no callback raising the Early-Stop
Signal performs exactly `R` `booster.update` calls, at round indices
`init_iteration` through `init_iteration + R - 1`, and reports
`best_iteration = R` when the booster carries no `'best_iteration'`
attribute, and the attribute's value plus one when it does. -/
theorem C1_train_full_budget (trainId : Nat) (validSets : List Nat)
    (validNames : Option (List String)) (cbs : List CallbackRec)
    (beh : TrainCbBehavior) (init R : Nat)
    (hv : processValidSets trainId validSets validNames ≠ none)
    (hno : ∀ id j b, (beh id j b).2 = none) :
    ∃ s : TrainState,
      train trainId validSets validNames cbs beh init R =
        .ok (s,
          match s.booster.bestIterAttr with
          | some v => v + 1
          | none => (R : Int)) ∧
      s.updateLog = List.range' init R ∧
      s.updateLog.length = R := by
  obtain ⟨s', hloop, hul, _⟩ := trainLoop_no_raise (resolveCallbacks cbs).1
    (resolveCallbacks cbs).2 beh hno R init ⟨⟨none⟩, [], []⟩
  cases hpv : processValidSets trainId validSets validNames with
  | none => exact absurd hpv hv
  | some vp =>
    refine ⟨s', ?_, by simpa using hul, by simp [hul]⟩
    unfold train
    rw [hpv, hloop]

/-- C1 witness: two callbacks, none raising, budget 3 from a fresh start. -/
theorem C1_train_full_budget_witness :
    ∃ s : TrainState,
      train 9 [] none [⟨0, none, true⟩, ⟨1, none, false⟩]
          (fun _ _ b => (b, none)) 0 3 =
        .ok (s,
          match s.booster.bestIterAttr with
          | some v => v + 1
          | none => (3 : Int)) ∧
      s.updateLog = List.range' 0 3 ∧
      s.updateLog.length = 3 :=
  C1_train_full_budget 9 [] none [⟨0, none, true⟩, ⟨1, none, false⟩]
    (fun _ _ b => (b, none)) 0 3 (by simp [processValidSets, processValidLoop])
    (fun _ _ _ => rfl)

/-! ## C2: scope of the Early-Stop Signal -/

/-- When no before-update callback ever raises, `train`'s round loop always
returns normally (the after-update sweep is wrapped in
`try/except EarlyStopException`, the only other exception source). -/
lemma trainLoop_no_before_raise (bcbs acbs : List CallbackRec)
    (beh : TrainCbBehavior)
    (hypB : ∀ c ∈ bcbs, ∀ j st, (beh c.id j st).2 = none) :
    ∀ (fuel i : Nat) (s : TrainState),
      ∃ s', trainLoop bcbs acbs beh i fuel s = .ok s' := by
  intro fuel
  induction fuel with
  | zero => intro i s; exact ⟨s, rfl⟩
  | succ n ih =>
    intro i s
    have hb := runCbs_no_raise beh i bcbs (fun c hc s' => hypB c hc i s') s.booster
    cases hra : (runCbs beh i acbs (runCbs beh i bcbs s.booster).1).2.2 with
    | some b =>
      exact ⟨{ booster := (runCbs beh i acbs (runCbs beh i bcbs s.booster).1).1
               updateLog := s.updateLog ++ [i]
               trace := (s.trace ++
                   (runCbs beh i bcbs s.booster).2.1.map
                     (fun id => (Phase.before, id, i))) ++
                 (runCbs beh i acbs (runCbs beh i bcbs s.booster).1).2.1.map
                   (fun id => (Phase.after, id, i)) },
        by simp [trainLoop, hb.2, hra]⟩
    | none =>
      have step : trainLoop bcbs acbs beh i (n + 1) s =
          trainLoop bcbs acbs beh (i + 1) n
            { booster := (runCbs beh i acbs (runCbs beh i bcbs s.booster).1).1
              updateLog := s.updateLog ++ [i]
              trace := (s.trace ++
                  (runCbs beh i bcbs s.booster).2.1.map
                    (fun id => (Phase.before, id, i))) ++
                (runCbs beh i acbs (runCbs beh i bcbs s.booster).1).2.1.map
                  (fun id => (Phase.after, id, i)) } := by
        simp [trainLoop, hb.2, hra]
      obtain ⟨s', hs'⟩ := ih (i + 1) _
      exact ⟨s', step.trans hs'⟩

/-- When no before-update callback ever raises, `cv`'s round loop always
returns normally. -/
lemma cvLoop_no_before_raise (bcbs acbs : List CallbackRec)
    (beh : CvCbBehavior) (foldEvals : Nat → List (List EvalLine))
    (hypB : ∀ c ∈ bcbs, ∀ j, beh c.id j = none) :
    ∀ (fuel i : Nat) (s : CvState),
      ∃ s', cvLoop bcbs acbs beh foldEvals i fuel s = .ok s' := by
  intro fuel
  induction fuel with
  | zero => intro i s; exact ⟨s, rfl⟩
  | succ n ih =>
    intro i s
    have hb := runCbs_no_raise (cvBeh beh) i bcbs
      (fun c hc s' => hypB c hc i) ()
    cases hra : (runCbs (cvBeh beh) i acbs ()).2.2 with
    | some b =>
      exact ⟨{ results := (cvResultsStep (aggCvResult (foldEvals i))
                 s.results).map (fun p => (p.1, p.2.take (b + 1)))
               rounds := s.rounds ++ [i]
               trace := (s.trace ++
                   (runCbs (cvBeh beh) i bcbs ()).2.1.map
                     (fun id => (Phase.before, id, i))) ++
                 (runCbs (cvBeh beh) i acbs ()).2.1.map
                   (fun id => (Phase.after, id, i)) },
        by simp [cvLoop, hb.2, hra]⟩
    | none =>
      have step : cvLoop bcbs acbs beh foldEvals i (n + 1) s =
          cvLoop bcbs acbs beh foldEvals (i + 1) n
            { results := cvResultsStep (aggCvResult (foldEvals i)) s.results
              rounds := s.rounds ++ [i]
              trace := (s.trace ++
                  (runCbs (cvBeh beh) i bcbs ()).2.1.map
                    (fun id => (Phase.before, id, i))) ++
                (runCbs (cvBeh beh) i acbs ()).2.1.map
                  (fun id => (Phase.after, id, i)) } := by
        simp [cvLoop, hb.2, hra]
      obtain ⟨s', hs'⟩ := ih (i + 1) _
      exact ⟨s', step.trans hs'⟩

/-- C2 as stated is false: the `try/except EarlyStopException` of both
controllers wraps only the after-update sweep, so a *before*-update callback
raising the signal escapes `train` and `cv` to their callers. -/
theorem C2_counterexample :
    train 7 [] none [⟨0, none, true⟩] (fun _ _ b => (b, some 4)) 0 2 =
      .error (.earlyStop 4) ∧
    cv [] [] [⟨0, none, true⟩] (fun _ _ => some 4) (fun _ => []) 2 =
      .error (.earlyStop 4) :=
  ⟨rfl, rfl⟩

/-- C2 amended: (1) a raising sweep skips the remaining callbacks of that
sweep; (2)/(3) when an *after-update* sweep raises, `trainLoop` / `cvLoop`
terminate immediately and normally (the signal is caught at the round-loop
boundary: no later round runs, no exception propagates); (4)/(5) when no
before-update callback raises, the signal never escapes `train` / `cv` to
the caller — but a before-update callback's signal does escape
(`C2_counterexample`). -/
theorem C2_early_stop_scope :
    (∀ (σ : Type) (beh : CbId → Nat → σ → σ × Option Nat) (i : Nat)
        (cbs : List CallbackRec) (s : σ) (b : Nat),
      (runCbs beh i cbs s).2.2 = some b →
      ∃ k, k < cbs.length ∧
        (runCbs beh i cbs s).2.1 = (cbs.take (k + 1)).map (fun c => c.id)) ∧
    (∀ (bcbs acbs : List CallbackRec) (beh : TrainCbBehavior)
        (i fuel : Nat) (s : TrainState) (b : Nat),
      (runCbs beh i bcbs s.booster).2.2 = none →
      (runCbs beh i acbs (runCbs beh i bcbs s.booster).1).2.2 = some b →
      ∃ s', trainLoop bcbs acbs beh i (fuel + 1) s = .ok s' ∧
        s'.updateLog = s.updateLog ++ [i]) ∧
    (∀ (bcbs acbs : List CallbackRec) (beh : CvCbBehavior)
        (foldEvals : Nat → List (List EvalLine))
        (i fuel : Nat) (s : CvState) (b : Nat),
      (runCbs (cvBeh beh) i bcbs ()).2.2 = none →
      (runCbs (cvBeh beh) i acbs ()).2.2 = some b →
      ∃ s', cvLoop bcbs acbs beh foldEvals i (fuel + 1) s = .ok s' ∧
        s'.rounds = s.rounds ++ [i]) ∧
    (∀ (trainId : Nat) (validSets : List Nat)
        (validNames : Option (List String)) (cbs : List CallbackRec)
        (beh : TrainCbBehavior) (init R : Nat),
      (∀ c ∈ (resolveCallbacks cbs).1, ∀ j st, (beh c.id j st).2 = none) →
      ∀ b, train trainId validSets validNames cbs beh init R ≠
        .error (.earlyStop b)) ∧
    (∀ (params : List (String × List String)) (metrics : List String)
        (cbs : List CallbackRec) (beh : CvCbBehavior)
        (foldEvals : Nat → List (List EvalLine)) (R : Nat),
      (∀ c ∈ (resolveCallbacks cbs).1, ∀ j, beh c.id j = none) →
      ∀ b, cv params metrics cbs beh foldEvals R ≠ .error (.earlyStop b)) := by
  refine ⟨fun σ beh i cbs s b h => runCbs_raise_prefix beh i cbs s b h,
    ?_, ?_, ?_, ?_⟩
  · intro bcbs acbs beh i fuel s b hb ha
    exact ⟨{ booster := (runCbs beh i acbs (runCbs beh i bcbs s.booster).1).1
             updateLog := s.updateLog ++ [i]
             trace := (s.trace ++
                 (runCbs beh i bcbs s.booster).2.1.map
                   (fun id => (Phase.before, id, i))) ++
               (runCbs beh i acbs (runCbs beh i bcbs s.booster).1).2.1.map
                 (fun id => (Phase.after, id, i)) },
      by simp [trainLoop, hb, ha], rfl⟩
  · intro bcbs acbs beh foldEvals i fuel s b hb ha
    exact ⟨{ results := (cvResultsStep (aggCvResult (foldEvals i))
               s.results).map (fun p => (p.1, p.2.take (b + 1)))
             rounds := s.rounds ++ [i]
             trace := (s.trace ++
                 (runCbs (cvBeh beh) i bcbs ()).2.1.map
                   (fun id => (Phase.before, id, i))) ++
               (runCbs (cvBeh beh) i acbs ()).2.1.map
                 (fun id => (Phase.after, id, i)) },
      by simp [cvLoop, hb, ha], rfl⟩
  · intro trainId validSets validNames cbs beh init R hypB b
    cases hpv : processValidSets trainId validSets validNames with
    | none => unfold train; rw [hpv]; simp
    | some vp =>
      obtain ⟨s', hs'⟩ := trainLoop_no_before_raise (resolveCallbacks cbs).1
        (resolveCallbacks cbs).2 beh hypB R init ⟨⟨none⟩, [], []⟩
      unfold train
      rw [hpv, hs']
      simp
  · intro params metrics cbs beh foldEvals R hypB b
    obtain ⟨s', hs'⟩ := cvLoop_no_before_raise (resolveCallbacks cbs).1
      (resolveCallbacks cbs).2 beh foldEvals hypB R 0 ⟨[], [], []⟩
    unfold cv
    rw [hs']
    simp

/-- C2 witness: a concrete after-update raiser is caught (the loop ends at
round 0 of a 3-round budget, returning normally), and a concrete raising
sweep stops at its first callback. -/
theorem C2_early_stop_scope_witness :
    (∃ s', trainLoop [] [⟨0, none, false⟩]
        (fun _ _ b => (b, some 1)) 0 (2 + 1) ⟨⟨none⟩, [], []⟩ = .ok s' ∧
      s'.updateLog = ([] : List Nat) ++ [0]) ∧
    (∀ b, train 7 [] none [⟨0, none, false⟩]
      (fun _ _ bo => (bo, some 1)) 0 3 ≠ .error (.earlyStop b)) :=
  ⟨C2_early_stop_scope.2.1 [] [⟨0, none, false⟩]
      (fun _ _ b => (b, some 1)) 0 2 ⟨⟨none⟩, [], []⟩ 1 rfl rfl,
   fun b => C2_early_stop_scope.2.2.2.1 7 [] none [⟨0, none, false⟩]
      (fun _ _ bo => (bo, some 1)) 0 3
      (fun c hc => absurd hc (List.not_mem_nil c)) b⟩

/-! ## C8: duplicate registrations collapse to one invocation per round -/

lemma countP_and_of_imp {α : Type} (p q : α → Bool)
    (h : ∀ a, p a = true → q a = true) :
    ∀ l : List α, l.countP (fun a => p a && q a) = l.countP p := by
  intro l
  induction l with
  | nil => rfl
  | cons a rest ih =>
    rw [List.countP_cons, List.countP_cons, ih]
    by_cases hp : p a = true
    · rw [hp, h a hp]
      simp
    · have : p a = false := by simpa using hp
      rw [this]
      simp

lemma countP_dedupById (cbs : List CallbackRec) (i : CbId) :
    (dedupById cbs).countP (fun d => d.id = i) =
      if cbs.any (fun d => d.id = i) then 1 else 0 := by
  induction cbs with
  | nil => rfl
  | cons c rest ih =>
    rw [show dedupById (c :: rest) =
      c :: (dedupById rest).filter (fun d => d.id ≠ c.id) from rfl]
    rw [List.countP_cons, List.countP_filter]
    by_cases hc : c.id = i
    · have hz : (dedupById rest).countP
          (fun a => decide (a.id = i) && decide (a.id ≠ c.id)) = 0 := by
        rw [List.countP_eq_zero]
        intro a _
        simp only [Bool.and_eq_true, decide_eq_true_eq]
        rintro ⟨h1, h2⟩
        exact h2 (by rw [h1, hc])
      rw [hz]
      simp [hc, List.any_cons]
    · have hcg : (dedupById rest).countP
          (fun a => decide (a.id = i) && decide (a.id ≠ c.id)) =
          (dedupById rest).countP (fun d => d.id = i) := by
        apply countP_and_of_imp
        intro a ha
        simp only [decide_eq_true_eq] at ha ⊢
        rw [ha]
        exact fun h => hc h.symm
      rw [hcg, ih]
      simp [List.any_cons, hc]

lemma countP_insertByKey (key : CallbackRec → Int) (c : CallbackRec)
    (p : CallbackRec → Bool) :
    ∀ l, (insertByKey key c l).countP p =
      l.countP p + (if p c then 1 else 0) := by
  intro l
  induction l with
  | nil => simp [insertByKey, List.countP_cons]
  | cons d rest ih =>
    rw [show insertByKey key c (d :: rest) =
      if key c < key d then c :: d :: rest
      else d :: insertByKey key c rest from rfl]
    by_cases h : key c < key d
    · simp only [if_pos h, List.countP_cons]
    · simp only [if_neg h, List.countP_cons, ih]
      omega

lemma countP_sortByKey (key : CallbackRec → Int) (p : CallbackRec → Bool) :
    ∀ l, (sortByKey key l).countP p = l.countP p := by
  intro l
  induction l with
  | nil => rfl
  | cons c rest ih =>
    rw [show sortByKey key (c :: rest) =
      insertByKey key c (sortByKey key rest) from rfl]
    rw [countP_insertByKey, ih, List.countP_cons]

lemma countP_filter_partition (p q : CallbackRec → Bool) :
    ∀ l : List CallbackRec,
      (l.filter q).countP p + (l.filter (fun a => !q a)).countP p =
        l.countP p := by
  intro l
  induction l with
  | nil => rfl
  | cons c rest ih =>
    by_cases h : q c = true
    · simp only [List.filter_cons, h, Bool.not_true, if_true]
      rw [List.countP_cons, List.countP_cons]
      simp only [Bool.false_eq_true, if_false]
      omega
    · have h' : q c = false := by simpa using h
      simp only [List.filter_cons, h', Bool.not_false, Bool.false_eq_true,
        if_false, if_true, eq_self_iff_true, List.countP_cons]
      omega

/-- Identity `i`, registered at least once, occurs exactly once across the
resolved before-update and after-update sequences. -/
lemma resolveCallbacks_countP (cbs : List CallbackRec) (i : CbId)
    (h : cbs.any (fun d => d.id = i) = true) :
    ((resolveCallbacks cbs).1 ++ (resolveCallbacks cbs).2).countP
      (fun d => d.id = i) = 1 := by
  unfold resolveCallbacks
  rw [List.countP_append, countP_sortByKey, countP_sortByKey,
    countP_filter_partition, countP_dedupById, if_pos h]

lemma countP_roundTrace (bcbs acbs : List CallbackRec) (cid : CbId)
    (i j : Nat) :
    (roundTrace bcbs acbs j).countP
        (fun e => decide (e.2.1 = cid) && decide (e.2.2 = i)) =
      if j = i then (bcbs ++ acbs).countP (fun c => c.id = cid) else 0 := by
  unfold roundTrace
  rw [List.countP_append, List.countP_map, List.countP_map,
    List.countP_append]
  by_cases hj : j = i
  · subst hj
    simp [Function.comp_def]
  · simp [Function.comp_def, hj]

lemma countP_flatten_roundTraces (bcbs acbs : List CallbackRec) (cid : CbId)
    (i : Nat) :
    ∀ rounds : List Nat,
      ((rounds.map (roundTrace bcbs acbs)).flatten).countP
          (fun e => decide (e.2.1 = cid) && decide (e.2.2 = i)) =
        rounds.count i * (bcbs ++ acbs).countP (fun c => c.id = cid) := by
  intro rounds
  induction rounds with
  | nil => simp
  | cons j rest ih =>
    rw [List.map_cons, List.flatten_cons, List.countP_append, ih,
      countP_roundTrace]
    by_cases hj : j = i
    · subst hj
      rw [if_pos rfl, List.count_cons_self]
      ring
    · rw [if_neg hj, List.count_cons_of_ne (fun h => hj h.symm)]
      ring

/-- When no callback raises, `cv`'s round loop runs its full budget: one
fold-update sweep per round, the trace accumulating one before-sweep and one
after-sweep per round, and the histories accumulating one
`cvResultsStep` per round. -/
lemma cvLoop_no_raise (bcbs acbs : List CallbackRec) (beh : CvCbBehavior)
    (foldEvals : Nat → List (List EvalLine))
    (hno : ∀ id j, beh id j = none) :
    ∀ (fuel i : Nat) (s : CvState),
      ∃ s', cvLoop bcbs acbs beh foldEvals i fuel s = .ok s' ∧
        s'.rounds = s.rounds ++ List.range' i fuel ∧
        s'.trace = s.trace ++
          ((List.range' i fuel).map (roundTrace bcbs acbs)).flatten ∧
        s'.results = (List.range' i fuel).foldl
          (fun m r => cvResultsStep (aggCvResult (foldEvals r)) m)
          s.results := by
  intro fuel
  induction fuel with
  | zero => intro i s; exact ⟨s, rfl, by simp, by simp, by simp⟩
  | succ n ih =>
    intro i s
    have hb := runCbs_no_raise (cvBeh beh) i bcbs
      (fun c _ s' => hno c.id i) ()
    have ha := runCbs_no_raise (cvBeh beh) i acbs
      (fun c _ s' => hno c.id i) ()
    obtain ⟨s', hs', hro, htr, hre⟩ := ih (i + 1)
      { results := cvResultsStep (aggCvResult (foldEvals i)) s.results
        rounds := s.rounds ++ [i]
        trace := s.trace ++
          (bcbs.map (fun c => (Phase.before, c.id, i)) ++
            acbs.map (fun c => (Phase.after, c.id, i))) }
    refine ⟨s', ?_, ?_, ?_, ?_⟩
    · rw [show cvLoop bcbs acbs beh foldEvals i (n + 1) s =
          cvLoop bcbs acbs beh foldEvals (i + 1) n
            { results := cvResultsStep (aggCvResult (foldEvals i)) s.results
              rounds := s.rounds ++ [i]
              trace := s.trace ++
                (bcbs.map (fun c => (Phase.before, c.id, i)) ++
                  acbs.map (fun c => (Phase.after, c.id, i))) } by
        simp [cvLoop, hb.1, hb.2, ha.1, ha.2, List.append_assoc,
          Function.comp_def]]
      exact hs'
    · rw [hro]
      simp [List.range']
    · rw [htr]
      simp [roundTrace, List.range', List.append_assoc]
    · rw [hre]
      simp [List.range']

/-- C8: a callback registered more than once still occurs exactly once in
the resolved dispatch sequences, and each executed round of `train` and of
`cv` invokes its identity exactly once. -/
theorem C8_duplicate_registration (cbs : List CallbackRec) (c : CallbackRec)
    (hc : c ∈ cbs) :
    ((resolveCallbacks cbs).1 ++ (resolveCallbacks cbs).2).countP
        (fun d => d.id = c.id) = 1 ∧
    (∀ (trainId : Nat) (validSets : List Nat)
        (validNames : Option (List String)) (beh : TrainCbBehavior)
        (init R : Nat),
      (∀ id j b, (beh id j b).2 = none) →
      ∀ s best, train trainId validSets validNames cbs beh init R =
        .ok (s, best) →
      ∀ i, init ≤ i → i < init + R →
        s.trace.countP
          (fun e => decide (e.2.1 = c.id) && decide (e.2.2 = i)) = 1) ∧
    (∀ (params : List (String × List String)) (metrics : List String)
        (beh : CvCbBehavior) (foldEvals : Nat → List (List EvalLine))
        (R : Nat),
      (∀ id j, beh id j = none) →
      ∀ s ps, cv params metrics cbs beh foldEvals R = .ok (s, ps) →
      ∀ i, i < R →
        s.trace.countP
          (fun e => decide (e.2.1 = c.id) && decide (e.2.2 = i)) = 1) := by
  have hany : cbs.any (fun d => d.id = c.id) = true := by
    rw [List.any_eq_true]
    exact ⟨c, hc, by simp⟩
  have hone := resolveCallbacks_countP cbs c.id hany
  refine ⟨hone, ?_, ?_⟩
  · intro trainId validSets validNames beh init R hno s best htr i hi1 hi2
    obtain ⟨s', hloop, _, htrace⟩ := trainLoop_no_raise (resolveCallbacks cbs).1
      (resolveCallbacks cbs).2 beh hno R init ⟨⟨none⟩, [], []⟩
    cases hpv : processValidSets trainId validSets validNames with
    | none =>
      unfold train at htr
      rw [hpv] at htr
      exact absurd htr (by simp)
    | some vp =>
      unfold train at htr
      rw [hpv, hloop] at htr
      simp only [Except.ok.injEq, Prod.mk.injEq] at htr
      obtain ⟨hs, _⟩ := htr
      subst hs
      rw [htrace]
      simp only [List.nil_append]
      rw [countP_flatten_roundTraces, hone,
        List.count_eq_one_of_mem (List.nodup_range' _ _)
          (by rw [List.mem_range'_1]; omega)]
  · intro params metrics beh foldEvals R hno s ps hcv i hi
    obtain ⟨s', hloop, _, htrace, _⟩ := cvLoop_no_raise (resolveCallbacks cbs).1
      (resolveCallbacks cbs).2 beh foldEvals hno R 0 ⟨[], [], []⟩
    unfold cv at hcv
    rw [hloop] at hcv
    simp only [Except.ok.injEq, Prod.mk.injEq] at hcv
    obtain ⟨hs, _⟩ := hcv
    subst hs
    rw [htrace]
    simp only [List.nil_append]
    rw [countP_flatten_roundTraces, hone,
      List.count_eq_one_of_mem (List.nodup_range' _ _)
        (by rw [List.mem_range'_1]; omega)]

/-- C8 witness: the identity-0 callback registered twice is invoked once in
each of the two rounds of a concrete `train` run, and once per resolved
sequence pair. -/
theorem C8_duplicate_registration_witness :
    ((resolveCallbacks [⟨0, none, false⟩, ⟨0, none, false⟩]).1 ++
        (resolveCallbacks [⟨0, none, false⟩, ⟨0, none, false⟩]).2).countP
      (fun d => d.id = 0) = 1 ∧
    (∀ s best,
      train 7 [] none [⟨0, none, false⟩, ⟨0, none, false⟩]
          (fun _ _ b => (b, none)) 0 2 = .ok (s, best) →
      s.trace.countP (fun e => decide (e.2.1 = 0) && decide (e.2.2 = 1)) = 1) :=
  ⟨(C8_duplicate_registration [⟨0, none, false⟩, ⟨0, none, false⟩]
      ⟨0, none, false⟩ (by simp)).1,
   fun s best h =>
    (C8_duplicate_registration [⟨0, none, false⟩, ⟨0, none, false⟩]
      ⟨0, none, false⟩ (by simp)).2.1 7 [] none (fun _ _ b => (b, none)) 0 2
      (fun _ _ _ => rfl) s best h 1 (by omega) (by omega)⟩

/-! ## C6: a validation set identical to the training set -/

/-- Processing a stretch of validation slots none of which is the training
dataset: every slot is appended to the reduced list under its slot name,
and the training-name state is untouched. -/
lemma processValidLoop_no_train (trainId : Nat)
    (validNames : Option (List String)) :
    ∀ (l : List Nat) (i0 : Nat) (acc : ValidProc), trainId ∉ l →
      processValidLoop trainId validNames i0 l acc = some
        { is_valid_contain_train := acc.is_valid_contain_train
          train_data_name := acc.train_data_name
          reduced_valid_sets := acc.reduced_valid_sets ++ l
          name_valid_sets := acc.name_valid_sets ++
            (List.range l.length).map (fun t => slotName validNames (i0 + t)) } := by
  intro l
  induction l with
  | nil =>
    intro i0 acc _
    simp [processValidLoop]
  | cons v rest ih =>
    intro i0 acc h
    have hv : ¬ v = trainId := fun hvv => h (by rw [hvv]; exact List.mem_cons_self _ _)
    have hrest : trainId ∉ rest := fun hr => h (List.mem_cons_of_mem _ hr)
    have hstep : processValidLoop trainId validNames i0 (v :: rest) acc =
        processValidLoop trainId validNames (i0 + 1) rest
          { acc with
            reduced_valid_sets := acc.reduced_valid_sets ++ [v]
            name_valid_sets := acc.name_valid_sets ++ [slotName validNames i0] } := by
      cases validNames with
      | none => simp [processValidLoop, hv, slotName]
      | some names => simp [processValidLoop, hv, slotName]
    rw [hstep, ih (i0 + 1) _ hrest]
    have hmap : (List.range (rest.length + 1)).map
        (fun t => slotName validNames (i0 + t)) =
        slotName validNames i0 ::
          (List.range rest.length).map
            (fun t => slotName validNames (i0 + 1 + t)) := by
      rw [List.range_succ_eq_map, List.map_cons, List.map_map]
      simp only [Nat.add_zero]
      congr 1
      apply List.map_congr_left
      intro t _
      simp only [Function.comp_apply]
      congr 1
      omega
    simp [hmap, List.append_assoc]

/-- The slot loop processes an appended list left to right, carrying the
slot index across the boundary. -/
lemma processValidLoop_append (trainId : Nat)
    (validNames : Option (List String)) :
    ∀ (l1 l2 : List Nat) (i0 : Nat) (acc : ValidProc),
      processValidLoop trainId validNames i0 (l1 ++ l2) acc =
        (processValidLoop trainId validNames i0 l1 acc).bind
          (fun acc' =>
            processValidLoop trainId validNames (i0 + l1.length) l2 acc') := by
  intro l1
  induction l1 with
  | nil => intro l2 i0 acc; simp [processValidLoop]
  | cons v r ih =>
    intro l2 i0 acc
    have harith : i0 + 1 + r.length = i0 + (r.length + 1) := by omega
    by_cases hv : v = trainId
    · cases validNames with
      | none =>
        simp only [List.cons_append, processValidLoop, if_pos hv]
        rw [List.append_eq, ih, List.length_cons, harith]
      | some names =>
        cases hg : names.get? i0 with
        | none =>
          simp only [List.cons_append, processValidLoop, if_pos hv, hg]
          rfl
        | some nm =>
          simp only [List.cons_append, processValidLoop, if_pos hv, hg]
          rw [List.append_eq, ih, List.length_cons, harith]
    · cases validNames with
      | none =>
        simp only [List.cons_append, processValidLoop, if_neg hv]
        rw [List.append_eq, ih, List.length_cons, harith]
      | some names =>
        simp only [List.cons_append, processValidLoop, if_neg hv]
        rw [List.append_eq, ih, List.length_cons, harith]

/-- C6: a `valid_sets` entry that *is* the training dataset (slot `l1.length`
here) sets `is_valid_contain_train`, contributes the caller-supplied name at
that slot (default `"training"`), is excluded from `reduced_valid_sets`
(which keeps every other entry in registration order under its slot name),
and the round's Evaluation Results put the training self-evaluation first,
followed by the independent validation results in registration order. -/
theorem C6_train_self_validation (trainId : Nat) (l1 l2 : List Nat)
    (validNames : Option (List String)) (evalOf : String → List EvalLine)
    (h1 : trainId ∉ l1) (h2 : trainId ∉ l2)
    (hlen : ∀ names, validNames = some names →
      l1.length + 1 + l2.length ≤ names.length) :
    ∃ vp, processValidSets trainId (l1 ++ trainId :: l2) validNames = some vp ∧
      vp.is_valid_contain_train = true ∧
      vp.train_data_name =
        (match validNames with
         | some names => names.getD l1.length ""
         | none => "training") ∧
      vp.reduced_valid_sets = l1 ++ l2 ∧
      trainId ∉ vp.reduced_valid_sets ∧
      vp.name_valid_sets =
        (List.range l1.length).map (fun t => slotName validNames t) ++
          (List.range l2.length).map
            (fun t => slotName validNames (l1.length + 1 + t)) ∧
      roundEvalList true vp evalOf =
        evalOf vp.train_data_name ++ evalValidResults evalOf vp.name_valid_sets := by
  unfold processValidSets
  rw [processValidLoop_append]
  rw [processValidLoop_no_train trainId validNames l1 0
    { is_valid_contain_train := false
      train_data_name := "training"
      reduced_valid_sets := []
      name_valid_sets := [] } h1]
  simp only [Option.some_bind, List.nil_append, Nat.zero_add]
  cases validNames with
  | none =>
    rw [show processValidLoop trainId none l1.length (trainId :: l2)
        { is_valid_contain_train := false
          train_data_name := "training"
          reduced_valid_sets := l1
          name_valid_sets := (List.range l1.length).map
            (fun t => slotName none t) } =
      processValidLoop trainId none (l1.length + 1) l2
        { is_valid_contain_train := true
          train_data_name := "training"
          reduced_valid_sets := l1
          name_valid_sets := (List.range l1.length).map
            (fun t => slotName none t) } from by
      simp [processValidLoop]]
    rw [processValidLoop_no_train trainId none l2 (l1.length + 1) _ h2]
    refine ⟨_, rfl, rfl, rfl, rfl, ?_, ?_, ?_⟩
    · simp only [List.mem_append]
      rintro (h | h)
      · exact h1 h
      · exact h2 h
    · simp
    · simp [roundEvalList]
  | some names =>
    have hlt : l1.length < names.length := by
      have := hlen names rfl
      omega
    cases hg : names.get? l1.length with
    | none =>
      rw [List.get?_eq_get hlt] at hg
      exact absurd hg (by simp)
    | some nm =>
      have hg' : names[l1.length]? = some nm := by
        rw [← List.get?_eq_getElem?]
        exact hg
      rw [show processValidLoop trainId (some names) l1.length (trainId :: l2)
          { is_valid_contain_train := false
            train_data_name := "training"
            reduced_valid_sets := l1
            name_valid_sets := (List.range l1.length).map
              (fun t => slotName (some names) t) } =
        processValidLoop trainId (some names) (l1.length + 1) l2
          { is_valid_contain_train := true
            train_data_name := nm
            reduced_valid_sets := l1
            name_valid_sets := (List.range l1.length).map
              (fun t => slotName (some names) t) } from by
        simp [processValidLoop, hg, hg']]
      rw [processValidLoop_no_train trainId (some names) l2 (l1.length + 1) _ h2]
      refine ⟨_, rfl, rfl, ?_, rfl, ?_, ?_, ?_⟩
      · show nm = names.getD l1.length ""
        rw [List.getD_eq_getElem?_getD, hg']
        rfl
      · simp only [List.mem_append]
        rintro (h | h)
        · exact h1 h
        · exact h2 h
      · simp
      · simp [roundEvalList]

/-- C6 witness: `valid_sets = [5, 7, 6]` where dataset 7 is the training
dataset, with names `["a", "b", "c"]`. -/
theorem C6_train_self_validation_witness :
    ∃ vp, processValidSets 7 ([5] ++ 7 :: [6]) (some ["a", "b", "c"]) =
        some vp ∧
      vp.is_valid_contain_train = true ∧
      vp.train_data_name =
        (match some ["a", "b", "c"] with
         | some names => names.getD ([5] : List Nat).length ""
         | none => "training") ∧
      vp.reduced_valid_sets = [5] ++ [6] ∧
      (7 : Nat) ∉ vp.reduced_valid_sets ∧
      vp.name_valid_sets =
        (List.range ([5] : List Nat).length).map
            (fun t => slotName (some ["a", "b", "c"]) t) ++
          (List.range ([6] : List Nat).length).map
            (fun t => slotName (some ["a", "b", "c"])
              (([5] : List Nat).length + 1 + t)) ∧
      roundEvalList true vp (fun nm => [⟨nm, "l2", 1, false⟩]) =
        (fun nm => [(⟨nm, "l2", 1, false⟩ : EvalLine)]) vp.train_data_name ++
          evalValidResults (fun nm => [⟨nm, "l2", 1, false⟩])
            vp.name_valid_sets :=
  C6_train_self_validation 7 [5] [6] (some ["a", "b", "c"])
    (fun nm => [⟨nm, "l2", 1, false⟩]) (by decide) (by decide)
    (by intro names h; cases h; decide)

/-! ## C9: `_agg_cv_result` aggregation -/

lemma lookup?_appendAt_self {α : Type} (m : List (String × List α))
    (k : String) (v : α) :
    lookup? (appendAt m k v) k = some ((lookup? m k).getD [] ++ [v]) := by
  unfold appendAt
  by_cases h : m.any (fun p => p.1 = k) = true
  · rw [if_pos h]
    obtain ⟨vs, hvs⟩ := lookup?_isSome_of_any_true m k h
    have hmod := lookup?_map_modify m k (fun x => x ++ [v])
    rw [hvs] at hmod
    simpa [hvs] using hmod
  · simp only [Bool.not_eq_true] at h
    rw [if_neg (by simp [h])]
    have hn := lookup?_eq_none_of_any_false m k h
    rw [lookup?_append_right _ _ _ hn, hn, lookup?_cons]
    simp

lemma lookup?_appendAt_ne {α : Type} (m : List (String × List α))
    (k k' : String) (v : α) (h : k' ≠ k) :
    lookup? (appendAt m k v) k' = lookup? m k' := by
  unfold appendAt
  by_cases ha : m.any (fun p => p.1 = k) = true
  · rw [if_pos ha]
    exact lookup?_map_modify_ne m k k' (fun x => x ++ [v]) h
  · simp only [Bool.not_eq_true] at ha
    rw [if_neg (by simp [ha])]
    by_cases hk : lookup? m k' = none
    · rw [lookup?_append_right _ _ _ hk, hk, lookup?_cons,
        if_neg (fun hh => h hh.symm), lookup?_nil]
    · obtain ⟨v', hv'⟩ := Option.ne_none_iff_exists'.mp hk
      rw [lookup?_append_left _ _ _ hv', hv']

lemma lookup?_setKey_self (m : List (String × Bool)) (k : String) (v : Bool) :
    lookup? (setKey m k v) k = some v := by
  unfold setKey
  by_cases h : m.any (fun p => p.1 = k) = true
  · rw [if_pos h]
    obtain ⟨b0, hb0⟩ := lookup?_isSome_of_any_true m k h
    have hmod := lookup?_map_modify m k (fun _ => v)
    rw [hb0] at hmod
    simpa using hmod
  · simp only [Bool.not_eq_true] at h
    rw [if_neg (by simp [h])]
    have hn := lookup?_eq_none_of_any_false m k h
    rw [lookup?_append_right _ _ _ hn, lookup?_cons]
    simp

lemma lookup?_setKey_ne (m : List (String × Bool)) (k k' : String) (v : Bool)
    (h : k' ≠ k) : lookup? (setKey m k v) k' = lookup? m k' := by
  unfold setKey
  by_cases ha : m.any (fun p => p.1 = k) = true
  · rw [if_pos ha]
    exact lookup?_map_modify_ne m k k' (fun _ => v) h
  · simp only [Bool.not_eq_true] at ha
    rw [if_neg (by simp [ha])]
    by_cases hk : lookup? m k' = none
    · rw [lookup?_append_right _ _ _ hk, hk, lookup?_cons,
        if_neg (fun hh => h hh.symm), lookup?_nil]
    · obtain ⟨v', hv'⟩ := Option.ne_none_iff_exists'.mp hk
      rw [lookup?_append_left _ _ _ hv', hv']

lemma keys_appendAt_nodup {α : Type} (m : List (String × List α))
    (k : String) (v : α) (hnd : (m.map Prod.fst).Nodup) :
    ((appendAt m k v).map Prod.fst).Nodup := by
  unfold appendAt
  by_cases h : m.any (fun p => p.1 = k) = true
  · rw [if_pos h]
    have hkeys : (m.map (fun p => if p.1 = k then (p.1, p.2 ++ [v]) else p)).map
        Prod.fst = m.map Prod.fst := by
      rw [List.map_map]
      apply List.map_congr_left
      intro p _
      by_cases hp : p.1 = k <;> simp [hp]
    rw [hkeys]
    exact hnd
  · simp only [Bool.not_eq_true] at h
    rw [if_neg (by simp [h]), List.map_append]
    rw [List.nodup_append]
    refine ⟨hnd, by simp, ?_⟩
    intro x hx hk
    simp only [List.map_cons, List.map_nil, List.mem_singleton] at hk
    subst hk
    obtain ⟨p, hp, hpk⟩ := List.mem_map.mp hx
    rw [List.any_eq_false] at h
    exact h p hp (by simpa using hpk)

lemma aggStep_keys_nodup :
    ∀ (ls : List EvalLine) (acc : List (String × List ℚ) × List (String × Bool)),
      (acc.1.map Prod.fst).Nodup → ((ls.foldl aggStep acc).1.map Prod.fst).Nodup := by
  intro ls
  induction ls with
  | nil => intro acc h; exact h
  | cons l rest ih =>
    intro acc h
    exact ih (aggStep acc l) (keys_appendAt_nodup acc.1 l.metricName l.value h)

lemma aggStep_lookup_some (m : String) :
    ∀ (ls : List EvalLine) (acc : List (String × List ℚ) × List (String × Bool))
      (vs : List ℚ), lookup? acc.1 m = some vs →
      lookup? ((ls.foldl aggStep acc).1) m = some (vs ++ lineValues m ls) := by
  intro ls
  induction ls with
  | nil =>
    intro acc vs h
    rw [List.foldl_nil, h]
    simp [lineValues]
  | cons l rest ih =>
    intro acc vs h
    rw [List.foldl_cons]
    by_cases hl : l.metricName = m
    · have hstep : lookup? (aggStep acc l).1 m = some (vs ++ [l.value]) := by
        show lookup? (appendAt acc.1 l.metricName l.value) m = _
        rw [hl, lookup?_appendAt_self, h]
        rfl
      rw [ih (aggStep acc l) _ hstep]
      simp [lineValues, List.filter_cons, hl]
    · have hstep : lookup? (aggStep acc l).1 m = some vs := by
        show lookup? (appendAt acc.1 l.metricName l.value) m = _
        rw [lookup?_appendAt_ne _ _ _ _ (fun hh => hl hh.symm), h]
      rw [ih (aggStep acc l) _ hstep]
      simp [lineValues, List.filter_cons, hl]

lemma aggStep_lookup_none (m : String) :
    ∀ (ls : List EvalLine) (acc : List (String × List ℚ) × List (String × Bool)),
      lookup? acc.1 m = none →
      lookup? ((ls.foldl aggStep acc).1) m =
        if ls.any (fun l => l.metricName = m) then some (lineValues m ls)
        else none := by
  intro ls
  induction ls with
  | nil =>
    intro acc h
    simpa using h
  | cons l rest ih =>
    intro acc h
    rw [List.foldl_cons]
    by_cases hl : l.metricName = m
    · have hstep : lookup? (aggStep acc l).1 m = some [l.value] := by
        show lookup? (appendAt acc.1 l.metricName l.value) m = _
        rw [hl, lookup?_appendAt_self, h]
        rfl
      rw [aggStep_lookup_some m rest (aggStep acc l) _ hstep]
      simp [lineValues, List.filter_cons, hl, List.any_cons]
    · have hstep : lookup? (aggStep acc l).1 m = none := by
        show lookup? (appendAt acc.1 l.metricName l.value) m = _
        rw [lookup?_appendAt_ne _ _ _ _ (fun hh => hl hh.symm), h]
      rw [ih (aggStep acc l) hstep]
      simp [lineValues, List.filter_cons, hl, List.any_cons]

lemma aggStep_flag_keep (m : String) (f : Bool) :
    ∀ (ls : List EvalLine) (acc : List (String × List ℚ) × List (String × Bool)),
      (∀ l ∈ ls, l.metricName = m → l.higherBetter = f) →
      lookup? acc.2 m = some f →
      lookup? ((ls.foldl aggStep acc).2) m = some f := by
  intro ls
  induction ls with
  | nil => intro acc _ h; exact h
  | cons l rest ih =>
    intro acc hf h
    rw [List.foldl_cons]
    refine ih (aggStep acc l) (fun l' hl' => hf l' (List.mem_cons_of_mem _ hl')) ?_
    by_cases hl : l.metricName = m
    · show lookup? (setKey acc.2 l.metricName l.higherBetter) m = some f
      rw [hl, lookup?_setKey_self, hf l (List.mem_cons_self _ _) hl]
    · show lookup? (setKey acc.2 l.metricName l.higherBetter) m = some f
      rw [lookup?_setKey_ne _ _ _ _ (fun hh => hl hh.symm), h]

lemma aggStep_flag (m : String) (f : Bool) :
    ∀ (ls : List EvalLine) (acc : List (String × List ℚ) × List (String × Bool)),
      (∀ l ∈ ls, l.metricName = m → l.higherBetter = f) →
      ls.any (fun l => l.metricName = m) = true →
      lookup? ((ls.foldl aggStep acc).2) m = some f := by
  intro ls
  induction ls with
  | nil => intro acc _ h; simp at h
  | cons l rest ih =>
    intro acc hf hocc
    rw [List.foldl_cons]
    by_cases hl : l.metricName = m
    · refine aggStep_flag_keep m f rest (aggStep acc l)
        (fun l' hl' => hf l' (List.mem_cons_of_mem _ hl')) ?_
      show lookup? (setKey acc.2 l.metricName l.higherBetter) m = some f
      rw [hl, lookup?_setKey_self, hf l (List.mem_cons_self _ _) hl]
    · have hocc' : rest.any (fun l => l.metricName = m) = true := by
        simpa [List.any_cons, hl] using hocc
      exact ih (aggStep acc l) (fun l' hl' => hf l' (List.mem_cons_of_mem _ hl'))
        hocc'

lemma aggCollect_eq (raw : List (List EvalLine)) :
    aggCollect raw = raw.flatten.foldl aggStep ([], []) :=
  (List.foldl_flatten aggStep ([], []) raw).symm

lemma aggCollect_lookup (raw : List (List EvalLine)) (m : String)
    (h : raw.flatten.any (fun l => l.metricName = m) = true) :
    lookup? (aggCollect raw).1 m = some (metricValues m raw) := by
  rw [aggCollect_eq, aggStep_lookup_none m raw.flatten ([], []) rfl, if_pos h]
  rfl

lemma aggCollect_flag (raw : List (List EvalLine)) (m : String) (f : Bool)
    (hocc : raw.flatten.any (fun l => l.metricName = m) = true)
    (hf : ∀ l ∈ raw.flatten, l.metricName = m → l.higherBetter = f) :
    lookup? (aggCollect raw).2 m = some f := by
  rw [aggCollect_eq]
  exact aggStep_flag m f raw.flatten ([], []) hf hocc

lemma aggCollect_keys_nodup (raw : List (List EvalLine)) :
    ((aggCollect raw).1.map Prod.fst).Nodup := by
  rw [aggCollect_eq]
  exact aggStep_keys_nodup raw.flatten ([], []) (by simp)

lemma filter_eq_singleton_of_lookup {α : Type} (k : String) (vs : α) :
    ∀ m : List (String × α), (m.map Prod.fst).Nodup → lookup? m k = some vs →
      m.filter (fun p => p.1 = k) = [(k, vs)] := by
  intro m
  induction m with
  | nil => intro _ h; simp [lookup?_nil] at h
  | cons p rest ih =>
    intro hnd h
    rw [List.map_cons, List.nodup_cons] at hnd
    rw [lookup?_cons] at h
    by_cases hp : p.1 = k
    · rw [if_pos hp] at h
      have hrest : rest.filter (fun q => q.1 = k) = [] := by
        rw [List.filter_eq_nil_iff]
        intro q hq
        simp only [decide_eq_true_eq]
        intro hqk
        apply hnd.1
        rw [hp, ← hqk]
        exact List.mem_map_of_mem Prod.fst hq
      rw [List.filter_cons, if_pos (by simpa using hp), hrest]
      have : p = (k, vs) := Prod.ext hp (by injection h)
      rw [this]
    · rw [if_neg hp] at h
      rw [List.filter_cons, if_neg (by simpa using hp)]
      exact ih hnd.2 h

lemma aggCvResult_eq_map (raw : List (List EvalLine)) :
    aggCvResult raw = (aggCollect raw).1.map (fun p =>
      ⟨"cv_agg", p.1, npMean p.2, (lookup? (aggCollect raw).2 p.1).getD false,
        npPopVar p.2⟩) := rfl

/-- C9: `_agg_cv_result` groups by metric name across folds and emits, per
reported metric, exactly one tuple `("cv_agg", m, mean, flag, std)` whose
mean is the arithmetic mean of the metric's per-fold values, whose std
(squared, see `npPopVar`) is their population variance, and whose flag is
the one the folds agree on; two folds reporting 0.4 and 0.6 aggregate to
mean 0.5. -/
theorem C9_agg_cv_result (raw : List (List EvalLine)) (m : String) (f : Bool)
    (hocc : raw.flatten.any (fun l => l.metricName = m) = true)
    (hflag : ∀ l ∈ raw.flatten, l.metricName = m → l.higherBetter = f) :
    (aggCvResult raw).filter (fun a => a.metricName = m) =
      [⟨"cv_agg", m, npMean (metricValues m raw), f,
        npPopVar (metricValues m raw)⟩] ∧
    aggCvResult [[⟨"fold0", "logloss", 2/5, false⟩],
        [⟨"fold1", "logloss", 3/5, false⟩]] =
      [⟨"cv_agg", "logloss", 1/2, false, 1/100⟩] := by
  constructor
  · rw [aggCvResult_eq_map, List.filter_map]
    have hfc : (aggCollect raw).1.filter
        ((fun a : AggLine => decide (a.metricName = m)) ∘ fun p =>
          (⟨"cv_agg", p.1, npMean p.2,
            (lookup? (aggCollect raw).2 p.1).getD false, npPopVar p.2⟩ :
              AggLine)) =
        (aggCollect raw).1.filter (fun p => p.1 = m) := by
      apply List.filter_congr
      intro p _
      rfl
    rw [hfc, filter_eq_singleton_of_lookup m (metricValues m raw)
      (aggCollect raw).1 (aggCollect_keys_nodup raw) (aggCollect_lookup raw m hocc)]
    rw [List.map_singleton]
    rw [aggCollect_flag raw m f hocc hflag]
    rfl
  · have h1 : npMean [2/5, 3/5] = (1 : ℚ)/2 := by
      norm_num [npMean, List.sum_cons, List.sum_nil]
    have h2 : npPopVar [2/5, 3/5] = (1 : ℚ)/100 := by
      norm_num [npPopVar, npMean, List.sum_cons, List.sum_nil,
        List.map_cons, List.map_nil]
    have hc : aggCvResult [[⟨"fold0", "logloss", 2/5, false⟩],
        [⟨"fold1", "logloss", 3/5, false⟩]] =
        [⟨"cv_agg", "logloss", npMean [2/5, 3/5], false,
          npPopVar [2/5, 3/5]⟩] := rfl
    rw [hc, h1, h2]

/-- C9 witness: the general clause applied to the two-fold logloss input. -/
theorem C9_agg_cv_result_witness :
    (aggCvResult [[⟨"fold0", "logloss", 2/5, false⟩],
        [⟨"fold1", "logloss", 3/5, false⟩]]).filter
      (fun a => a.metricName = "logloss") =
      [⟨"cv_agg", "logloss",
        npMean (metricValues "logloss"
          [[⟨"fold0", "logloss", 2/5, false⟩], [⟨"fold1", "logloss", 3/5, false⟩]]),
        false,
        npPopVar (metricValues "logloss"
          [[⟨"fold0", "logloss", 2/5, false⟩], [⟨"fold1", "logloss", 3/5, false⟩]])⟩] :=
  (C9_agg_cv_result
    [[⟨"fold0", "logloss", 2/5, false⟩], [⟨"fold1", "logloss", 3/5, false⟩]]
    "logloss" false (by decide) (by decide)).1

/-! ## C3: `cv` metric histories -/

lemma stringKey_append_inj (m1 m2 t : String) (h : m1 ++ t = m2 ++ t) :
    m1 = m2 := by
  have hd := congrArg String.data h
  rw [String.data_append, String.data_append] at hd
  exact String.ext (List.append_cancel_right hd)

lemma stringKey_mean_ne_stdv (m1 m2 : String) :
    m1 ++ "-mean" ≠ m2 ++ "-stdv" := by
  intro h
  have hd := congrArg String.data h
  rw [String.data_append, String.data_append] at hd
  have hlen : ("-mean" : String).data.length = ("-stdv" : String).data.length :=
    rfl
  obtain ⟨_, h2⟩ := List.append_inj' hd hlen
  exact absurd h2 (by decide)

lemma aggCvResult_names_nodup (raw : List (List EvalLine)) :
    ((aggCvResult raw).map AggLine.metricName).Nodup := by
  rw [aggCvResult_eq_map, List.map_map]
  have hc : (AggLine.metricName ∘ fun p : String × List ℚ =>
      (⟨"cv_agg", p.1, npMean p.2,
        (lookup? (aggCollect raw).2 p.1).getD false, npPopVar p.2⟩ :
          AggLine)) = Prod.fst := by
    funext p
    rfl
  rw [hc]
  exact aggCollect_keys_nodup raw

lemma cvResultsStep_lookup_not_mem (m : String) :
    ∀ (res : List AggLine) (acc : List (String × List ℚ)),
      (∀ a ∈ res, a.metricName ≠ m) →
      lookup? (cvResultsStep res acc) (m ++ "-mean") =
        lookup? acc (m ++ "-mean") ∧
      lookup? (cvResultsStep res acc) (m ++ "-stdv") =
        lookup? acc (m ++ "-stdv") := by
  intro res
  induction res with
  | nil => intro acc _; exact ⟨rfl, rfl⟩
  | cons x rs ih =>
    intro acc h
    have hx := h x (List.mem_cons_self _ _)
    rw [show cvResultsStep (x :: rs) acc = cvResultsStep rs
      (appendAt (appendAt acc (x.metricName ++ "-mean") x.mean)
        (x.metricName ++ "-stdv") x.popVar) from rfl]
    obtain ⟨ih1, ih2⟩ := ih _ (fun a' ha' => h a' (List.mem_cons_of_mem _ ha'))
    refine ⟨?_, ?_⟩
    · rw [ih1,
        lookup?_appendAt_ne _ _ _ _ (stringKey_mean_ne_stdv m x.metricName),
        lookup?_appendAt_ne _ _ _ _
          (fun hh => hx (stringKey_append_inj _ _ _ hh).symm)]
    · rw [ih2,
        lookup?_appendAt_ne _ _ _ _
          (fun hh => hx (stringKey_append_inj _ _ _ hh).symm),
        lookup?_appendAt_ne _ _ _ _
          (fun hh => stringKey_mean_ne_stdv x.metricName m hh.symm)]

lemma cvResultsStep_lookup (m : String) (a : AggLine) :
    ∀ (res : List AggLine) (acc : List (String × List ℚ)),
      (res.map AggLine.metricName).Nodup →
      res.find? (fun x => x.metricName = m) = some a →
      lookup? (cvResultsStep res acc) (m ++ "-mean") =
        some ((lookup? acc (m ++ "-mean")).getD [] ++ [a.mean]) ∧
      lookup? (cvResultsStep res acc) (m ++ "-stdv") =
        some ((lookup? acc (m ++ "-stdv")).getD [] ++ [a.popVar]) := by
  intro res
  induction res with
  | nil => intro acc _ hf; simp [List.find?] at hf
  | cons x rs ih =>
    intro acc hnd hf
    rw [List.map_cons, List.nodup_cons] at hnd
    rw [show cvResultsStep (x :: rs) acc = cvResultsStep rs
      (appendAt (appendAt acc (x.metricName ++ "-mean") x.mean)
        (x.metricName ++ "-stdv") x.popVar) from rfl]
    by_cases hx : x.metricName = m
    · have hax : a = x := by
        rw [List.find?_cons_of_pos _ (by simpa using hx)] at hf
        injection hf with hf
        exact hf.symm
      subst hax
      have hnom : ∀ a' ∈ rs, a'.metricName ≠ m := by
        intro a' ha' he
        exact hnd.1 (by rw [hx, ← he]; exact List.mem_map_of_mem _ ha')
      obtain ⟨hu1, hu2⟩ := cvResultsStep_lookup_not_mem m rs _ hnom
      refine ⟨?_, ?_⟩
      · rw [hu1,
          lookup?_appendAt_ne _ _ _ _ (stringKey_mean_ne_stdv m a.metricName),
          hx, lookup?_appendAt_self]
      · rw [hu2, hx, lookup?_appendAt_self,
          lookup?_appendAt_ne _ _ _ _
            (fun hh => stringKey_mean_ne_stdv m m hh.symm)]
    · have hf' : rs.find? (fun y => y.metricName = m) = some a := by
        rw [List.find?_cons_of_neg _ (by simpa using hx)] at hf
        exact hf
      obtain ⟨ih1, ih2⟩ := ih
        (appendAt (appendAt acc (x.metricName ++ "-mean") x.mean)
          (x.metricName ++ "-stdv") x.popVar) hnd.2 hf'
      refine ⟨?_, ?_⟩
      · rw [ih1,
          lookup?_appendAt_ne _ _ _ _ (stringKey_mean_ne_stdv m x.metricName),
          lookup?_appendAt_ne _ _ _ _
            (fun hh => hx (stringKey_append_inj _ _ _ hh).symm)]
      · rw [ih2,
          lookup?_appendAt_ne _ _ _ _
            (fun hh => hx (stringKey_append_inj _ _ _ hh).symm),
          lookup?_appendAt_ne _ _ _ _
            (fun hh => stringKey_mean_ne_stdv x.metricName m hh.symm)]

lemma cvHistories_foldl_some (foldEvals : Nat → List (List EvalLine))
    (m : String) (A : Nat → AggLine) :
    ∀ (rounds : List Nat) (acc : List (String × List ℚ)) (vsm vss : List ℚ),
      (∀ r ∈ rounds, (aggCvResult (foldEvals r)).find?
        (fun x => x.metricName = m) = some (A r)) →
      lookup? acc (m ++ "-mean") = some vsm →
      lookup? acc (m ++ "-stdv") = some vss →
      lookup? (rounds.foldl (fun acc2 r =>
          cvResultsStep (aggCvResult (foldEvals r)) acc2) acc) (m ++ "-mean") =
        some (vsm ++ rounds.map (fun r => (A r).mean)) ∧
      lookup? (rounds.foldl (fun acc2 r =>
          cvResultsStep (aggCvResult (foldEvals r)) acc2) acc) (m ++ "-stdv") =
        some (vss ++ rounds.map (fun r => (A r).popVar)) := by
  intro rounds
  induction rounds with
  | nil =>
    intro acc vsm vss _ hm hs
    rw [List.foldl_nil]
    constructor
    · rw [hm]; simp
    · rw [hs]; simp
  | cons r rs ih =>
    intro acc vsm vss hcov hm hs
    rw [List.foldl_cons]
    obtain ⟨h1, h2⟩ := cvResultsStep_lookup m (A r) (aggCvResult (foldEvals r))
      acc (aggCvResult_names_nodup _) (hcov r (List.mem_cons_self _ _))
    rw [hm] at h1
    rw [hs] at h2
    obtain ⟨ih1, ih2⟩ := ih (cvResultsStep (aggCvResult (foldEvals r)) acc)
      (vsm ++ [(A r).mean]) (vss ++ [(A r).popVar])
      (fun r' hr' => hcov r' (List.mem_cons_of_mem _ hr')) h1 h2
    constructor
    · rw [ih1]
      simp
    · rw [ih2]
      simp

lemma cvHistories_from_nil (foldEvals : Nat → List (List EvalLine))
    (m : String) (A : Nat → AggLine) (rounds : List Nat) (hne : rounds ≠ [])
    (hcov : ∀ r ∈ rounds, (aggCvResult (foldEvals r)).find?
      (fun x => x.metricName = m) = some (A r)) :
    lookup? (rounds.foldl (fun acc2 r =>
        cvResultsStep (aggCvResult (foldEvals r)) acc2) [])
      (m ++ "-mean") = some (rounds.map (fun r => (A r).mean)) ∧
    lookup? (rounds.foldl (fun acc2 r =>
        cvResultsStep (aggCvResult (foldEvals r)) acc2) [])
      (m ++ "-stdv") = some (rounds.map (fun r => (A r).popVar)) := by
  cases rounds with
  | nil => exact absurd rfl hne
  | cons r rs =>
    rw [List.foldl_cons]
    obtain ⟨h1, h2⟩ := cvResultsStep_lookup m (A r) (aggCvResult (foldEvals r))
      [] (aggCvResult_names_nodup _) (hcov r (List.mem_cons_self _ _))
    rw [lookup?_nil] at h1 h2
    obtain ⟨hh1, hh2⟩ := cvHistories_foldl_some foldEvals m A rs
      (cvResultsStep (aggCvResult (foldEvals r)) []) [(A r).mean]
      [(A r).popVar] (fun r' hr' => hcov r' (List.mem_cons_of_mem _ hr'))
      (by simpa using h1) (by simpa using h2)
    exact ⟨by simpa using hh1, by simpa using hh2⟩

lemma lookup?_map_values {α β : Type} (m : List (String × α)) (g : α → β)
    (k : String) :
    lookup? (m.map (fun p => (p.1, g p.2))) k = (lookup? m k).map g := by
  induction m with
  | nil => simp [lookup?_nil]
  | cons p rest ih =>
    obtain ⟨a, b⟩ := p
    by_cases hp : a = k
    · subst hp
      simp [lookup?_cons]
    · simp [lookup?_cons, hp, ih]

/-- When no before-update callback raises, no after-update sweep raises
before round `j + n`, and the sweep at round `j + n` raises `b`, the loop
executes exactly rounds `j .. j + n` and returns the histories accumulated
over those rounds, each truncated to its first `b + 1` entries. -/
lemma cvLoop_break_at (bcbs acbs : List CallbackRec) (beh : CvCbBehavior)
    (foldEvals : Nat → List (List EvalLine)) (b : Nat)
    (hbefore : ∀ c ∈ bcbs, ∀ j, beh c.id j = none) :
    ∀ (n j fuel : Nat) (s : CvState),
      (∀ r, j ≤ r → r < j + n → (runCbs (cvBeh beh) r acbs ()).2.2 = none) →
      (runCbs (cvBeh beh) (j + n) acbs ()).2.2 = some b →
      n < fuel →
      ∃ s', cvLoop bcbs acbs beh foldEvals j fuel s = .ok s' ∧
        s'.rounds = s.rounds ++ List.range' j (n + 1) ∧
        s'.results = ((List.range' j (n + 1)).foldl
            (fun acc r => cvResultsStep (aggCvResult (foldEvals r)) acc)
            s.results).map (fun p => (p.1, p.2.take (b + 1))) := by
  intro n
  induction n with
  | zero =>
    intro j fuel s _ hra hfuel
    obtain ⟨f, rfl⟩ : ∃ f, fuel = f + 1 := ⟨fuel - 1, by omega⟩
    have hb := runCbs_no_raise (cvBeh beh) j bcbs
      (fun c hc s' => hbefore c hc j) ()
    rw [Nat.add_zero] at hra
    refine ⟨{ results := (cvResultsStep (aggCvResult (foldEvals j))
                 s.results).map (fun p => (p.1, p.2.take (b + 1)))
              rounds := s.rounds ++ [j]
              trace := (s.trace ++
                  (runCbs (cvBeh beh) j bcbs ()).2.1.map
                    (fun id => (Phase.before, id, j))) ++
                (runCbs (cvBeh beh) j acbs ()).2.1.map
                  (fun id => (Phase.after, id, j)) },
      by simp [cvLoop, hb.2, hra], by simp [List.range'], by simp [List.range']⟩
  | succ n ih =>
    intro j fuel s hnone hra hfuel
    obtain ⟨f, rfl⟩ : ∃ f, fuel = f + 1 := ⟨fuel - 1, by omega⟩
    have hb := runCbs_no_raise (cvBeh beh) j bcbs
      (fun c hc s' => hbefore c hc j) ()
    have hj : (runCbs (cvBeh beh) j acbs ()).2.2 = none :=
      hnone j (Nat.le_refl _) (by omega)
    have step : cvLoop bcbs acbs beh foldEvals j (f + 1) s =
        cvLoop bcbs acbs beh foldEvals (j + 1) f
          { results := cvResultsStep (aggCvResult (foldEvals j)) s.results
            rounds := s.rounds ++ [j]
            trace := (s.trace ++
                (runCbs (cvBeh beh) j bcbs ()).2.1.map
                  (fun id => (Phase.before, id, j))) ++
              (runCbs (cvBeh beh) j acbs ()).2.1.map
                (fun id => (Phase.after, id, j)) } := by
      simp [cvLoop, hb.2, hj]
    obtain ⟨s', hs', hro, hre⟩ := ih (j + 1) f
      { results := cvResultsStep (aggCvResult (foldEvals j)) s.results
        rounds := s.rounds ++ [j]
        trace := (s.trace ++
            (runCbs (cvBeh beh) j bcbs ()).2.1.map
              (fun id => (Phase.before, id, j))) ++
          (runCbs (cvBeh beh) j acbs ()).2.1.map
            (fun id => (Phase.after, id, j)) }
      (fun r h1 h2 => hnone r (by omega) (by omega))
      (by rw [show j + 1 + n = j + (n + 1) from by omega]; exact hra)
      (by omega)
    refine ⟨s', step.trans hs', ?_, ?_⟩
    · rw [hro]
      simp [List.range', List.append_assoc]
    · rw [hre]
      simp [List.range']

/-- C3: (full run) with no callback raising, `cv` run for `R > 0` rounds
returns `<m>-mean` / `<m>-stdv` histories holding, for each of the `R`
executed rounds in round order, that round's aggregate mean and (squared)
std of metric `m`; (early stop) when the after-update sweep first raises at
round `i < R` carrying `b ≤ i` (the signal's payload is the index of an
observed round), every history is truncated to exactly `b + 1` entries
before return. -/
theorem C3_cv_metric_histories (params : List (String × List String))
    (metrics : List String) (cbs : List CallbackRec) (beh : CvCbBehavior)
    (foldEvals : Nat → List (List EvalLine)) (R : Nat) (m : String)
    (A : Nat → AggLine) :
    (0 < R →
      (∀ id j, beh id j = none) →
      (∀ r, r < R → (aggCvResult (foldEvals r)).find?
        (fun x => x.metricName = m) = some (A r)) →
      ∃ s ps, cv params metrics cbs beh foldEvals R = .ok (s, ps) ∧
        s.rounds = List.range' 0 R ∧
        lookup? s.results (m ++ "-mean") =
          some ((List.range' 0 R).map (fun r => (A r).mean)) ∧
        lookup? s.results (m ++ "-stdv") =
          some ((List.range' 0 R).map (fun r => (A r).popVar)) ∧
        ((List.range' 0 R).map (fun r => (A r).mean)).length = R) ∧
    (∀ (i b : Nat),
      (∀ c ∈ (resolveCallbacks cbs).1, ∀ j, beh c.id j = none) →
      (∀ r, r < i →
        (runCbs (cvBeh beh) r (resolveCallbacks cbs).2 ()).2.2 = none) →
      (runCbs (cvBeh beh) i (resolveCallbacks cbs).2 ()).2.2 = some b →
      i < R → b ≤ i →
      (∀ r, r ≤ i → (aggCvResult (foldEvals r)).find?
        (fun x => x.metricName = m) = some (A r)) →
      ∃ s ps, cv params metrics cbs beh foldEvals R = .ok (s, ps) ∧
        s.rounds = List.range' 0 (i + 1) ∧
        lookup? s.results (m ++ "-mean") =
          some (((List.range' 0 (i + 1)).map
            (fun r => (A r).mean)).take (b + 1)) ∧
        lookup? s.results (m ++ "-stdv") =
          some (((List.range' 0 (i + 1)).map
            (fun r => (A r).popVar)).take (b + 1)) ∧
        (((List.range' 0 (i + 1)).map
          (fun r => (A r).mean)).take (b + 1)).length = b + 1) := by
  constructor
  · intro hR hno hcov
    obtain ⟨s', hloop, hro, _, hre⟩ := cvLoop_no_raise (resolveCallbacks cbs).1
      (resolveCallbacks cbs).2 beh foldEvals hno R 0 ⟨[], [], []⟩
    obtain ⟨hm, hs⟩ := cvHistories_from_nil foldEvals m A (List.range' 0 R)
      (by simp [List.range'_eq_nil]; omega)
      (fun r hr => hcov r (by
        have := List.mem_range'_1.mp hr
        omega))
    refine ⟨s', cvUpdateParams params metrics, ?_, by simpa using hro,
      ?_, ?_, ?_⟩
    · unfold cv
      rw [hloop]
    · rw [hre]
      simpa using hm
    · rw [hre]
      simpa using hs
    · simp
  · intro i b hbefore hnone hra hiR hbi hcov
    obtain ⟨s', hloop, hro, hre⟩ := cvLoop_break_at (resolveCallbacks cbs).1
      (resolveCallbacks cbs).2 beh foldEvals b hbefore i 0 R ⟨[], [], []⟩
      (fun r h1 h2 => hnone r (by omega)) (by simpa using hra) hiR
    obtain ⟨hm, hs⟩ := cvHistories_from_nil foldEvals m A
      (List.range' 0 (i + 1)) (by simp [List.range'_eq_nil])
      (fun r hr => hcov r (by
        have := List.mem_range'_1.mp hr
        omega))
    refine ⟨s', cvUpdateParams params metrics, ?_, by simpa using hro,
      ?_, ?_, ?_⟩
    · unfold cv
      rw [hloop]
    · rw [hre, lookup?_map_values]
      simp only [List.nil_append] at hm ⊢
      rw [hm]
      rfl
    · rw [hre, lookup?_map_values]
      simp only [List.nil_append] at hs ⊢
      rw [hs]
      rfl
    · rw [List.length_take, List.length_map, List.length_range']
      omega

/-- C3 witness: one after-update callback raising at round 1 with payload 0
in a 5-round budget; the single-metric histories are truncated to one
entry. -/
theorem C3_cv_metric_histories_witness :
    ∃ s ps, cv [] [] [⟨0, none, false⟩]
        (fun _ r => if r = 1 then some 0 else none)
        (fun _ => [[⟨"v", "l", 1/2, false⟩]]) 5 = .ok (s, ps) ∧
      s.rounds = List.range' 0 (1 + 1) ∧
      lookup? s.results ("l" ++ "-mean") =
        some (((List.range' 0 (1 + 1)).map (fun _ =>
          (AggLine.mk "cv_agg" "l" (npMean [1/2]) false
            (npPopVar [1/2])).mean)).take (0 + 1)) ∧
      lookup? s.results ("l" ++ "-stdv") =
        some (((List.range' 0 (1 + 1)).map (fun _ =>
          (AggLine.mk "cv_agg" "l" (npMean [1/2]) false
            (npPopVar [1/2])).popVar)).take (0 + 1)) ∧
      (((List.range' 0 (1 + 1)).map (fun _ =>
        (AggLine.mk "cv_agg" "l" (npMean [1/2]) false
          (npPopVar [1/2])).mean)).take (0 + 1)).length = 0 + 1 :=
  (C3_cv_metric_histories [] [] [⟨0, none, false⟩]
    (fun _ r => if r = 1 then some 0 else none)
    (fun _ => [[⟨"v", "l", 1/2, false⟩]]) 5 "l"
    (fun _ => AggLine.mk "cv_agg" "l" (npMean [1/2]) false (npPopVar [1/2]))).2
    1 0 (fun c hc => absurd hc (List.not_mem_nil c))
    (fun r hr => by
      have : r = 0 := by omega
      subst this
      rfl)
    rfl (by omega) (by omega) (fun r _ => rfl)

end LightGBM
